import Mathlib

/-! # dfr.js: numeric validation, column coercion and slicing

A shallow embedding of `src/dfr.js` (`validNumber`, `dataDimensions`,
`findTotal`, `calculateMean`, `calculateMedian`, `convertToNumber`, `flatten`,
`createSlice`) together with the parts of the JavaScript platform those
functions call: `String(v)`, `Number(v)`, `parseFloat(v)`, `isNaN`,
`isFinite`, addition, division, sorting by a comparator, strict equality and
property access on arrays.

Numbers are IEEE-754 binary64 values, represented exactly (sign, integer
significand, binary exponent); conversions from decimal text round to
nearest, ties to even.  Strings are sequences of Unicode code points.
-/

namespace Dfr

/-! ## JavaScript numbers -/

/-- A binary64 value.  `fin neg m e` is the number `(-1)^neg * m * 2^(e - 1074)`;
the values built by `roundToDouble` satisfy `m < 2^53`, `e ≤ 2045`, and
`2^52 ≤ m` whenever `0 < e`, so every number has one representation
(`fin false 0 0` is `+0`, `fin true 0 0` is `-0`). -/
inductive JSNumber where
  | nan : JSNumber
  | inf (neg : Bool) : JSNumber
  | fin (neg : Bool) (m : Nat) (e : Nat) : JSNumber
  deriving DecidableEq, Repr

/-- Largest biased exponent of a finite binary64 value (`971 + 1074`). -/
def maxExp : Nat := 2045

/-- The least `e` below `4096` with `n < d * 2 ^ (e + 53)`, found by bisection
(`4095` when there is none): the binary exponent at which `n / d` has a
53-bit integer part. -/
def binExp (n d : Nat) : Nat :=
  [2048, 1024, 512, 256, 128, 64, 32, 16, 8, 4, 2, 1].foldl
    (fun e b => if d * 2 ^ (e + b + 52) ≤ n then e + b else e) 0

/-- The binary64 value nearest to the rational `n / d` (`d > 0`), ties to even,
with sign `neg`; too large a magnitude gives an infinity. -/
def roundToDouble (neg : Bool) (n d : Nat) : JSNumber :=
  if n = 0 then JSNumber.fin neg 0 0
  else
    let bigN := n * 2 ^ 1074
    let e := binExp bigN d
    let den := d * 2 ^ e
    let q := bigN / den
    let r := bigN % den
    let m := if 2 * r < den then q
             else if den < 2 * r then q + 1
             else q + q % 2
    let m2 := if m = 2 ^ 53 then 2 ^ 52 else m
    let e2 := if m = 2 ^ 53 then e + 1 else e
    if maxExp < e2 then JSNumber.inf neg else JSNumber.fin neg m2 e2

/-- JavaScript `isNaN` on a number. -/
def JSNumber.isNaN : JSNumber → Bool
  | JSNumber.nan => true
  | _ => false

/-- JavaScript `isFinite` on a number. -/
def JSNumber.isFinite : JSNumber → Bool
  | JSNumber.fin _ _ _ => true
  | _ => false

/-! ## Text to number: `StringToNumber` and `parseFloat` -/

/-- The characters removed by `TrimString` (WhiteSpace and LineTerminator). -/
def isStrWhiteSpace (c : Char) : Bool :=
  let n := c.toNat
  n = 9 || n = 10 || n = 11 || n = 12 || n = 13 || n = 32 || n = 0xA0 || n = 0x1680 ||
  (0x2000 ≤ n && n ≤ 0x200A) || n = 0x2028 || n = 0x2029 || n = 0x202F || n = 0x205F ||
  n = 0x3000 || n = 0xFEFF

/-- Removes leading white space. -/
def trimStart (cs : List Char) : List Char := cs.dropWhile isStrWhiteSpace

/-- Removes trailing white space. -/
def trimEnd (cs : List Char) : List Char := (cs.reverse.dropWhile isStrWhiteSpace).reverse

/-- Value of a decimal digit character. -/
def digitVal (c : Char) : Nat := c.toNat - 48

/-- Value of a run of decimal digits. -/
def digitsToNat (ds : List Char) : Nat := ds.foldl (fun a c => 10 * a + digitVal c) 0

/-- A parsed `StrUnsignedDecimalLiteral`: `Infinity`, or the integer digits,
fraction digits and decimal exponent (sign, magnitude) of a decimal literal. -/
inductive UDec where
  | infinity : UDec
  | dec (ip fp : List Char) (eneg : Bool) (ex : Nat) : UDec
  deriving DecidableEq, Repr

/-- The text after an optional sign character `+` or `-`. -/
def dropSign (cs : List Char) : List Char :=
  match cs with
  | [] => []
  | c :: t => if c = '+' ∨ c = '-' then t else c :: t

/-- The `ExponentPart` at the head of `cs`, if a complete one is there:
`e` or `E`, an optional sign and at least one digit. -/
def parseExponent (cs : List Char) : Option ((Bool × Nat) × List Char) :=
  match cs with
  | [] => none
  | c :: r =>
    if c = 'e' ∨ c = 'E' then
      let ds := (dropSign r).takeWhile Char.isDigit
      if ds = [] then none
      else some ((decide (r.head? = some '-'), digitsToNat ds), (dropSign r).dropWhile Char.isDigit)
    else none

/-- The longest prefix of `cs` that is a `StrUnsignedDecimalLiteral`, with the
text left after it. -/
def parseUnsigned (cs : List Char) : Option (UDec × List Char) :=
  if "Infinity".toList.isPrefixOf cs then some (UDec.infinity, cs.drop 8)
  else
    let ip := cs.takeWhile Char.isDigit
    let r1 := cs.dropWhile Char.isDigit
    let hasDot := decide (r1.head? = some '.')
    let fp := if hasDot then r1.tail.takeWhile Char.isDigit else []
    let r2 := if hasDot then r1.tail.dropWhile Char.isDigit else r1
    if ip = [] ∧ fp = [] then none
    else match parseExponent r2 with
      | some ((eneg, ex), r3) => some (UDec.dec ip fp eneg ex, r3)
      | none => some (UDec.dec ip fp false 0, r2)

/-- The longest prefix of `cs` that is a `StrDecimalLiteral` (an optional sign
and an unsigned literal), with the text left after it. -/
def parseSigned (cs : List Char) : Option ((Bool × UDec) × List Char) :=
  (parseUnsigned (dropSign cs)).map (fun p => ((decide (cs.head? = some '-'), p.1), p.2))

/-- The number denoted by a signed decimal literal (`StringNumericValue`
followed by rounding). -/
def decValue (neg : Bool) : UDec → JSNumber
  | UDec.infinity => JSNumber.inf neg
  | UDec.dec ip fp eneg ex =>
    let mant := digitsToNat (ip ++ fp)
    if eneg then roundToDouble neg mant (10 ^ (fp.length + ex))
    else if fp.length ≤ ex then roundToDouble neg (mant * 10 ^ (ex - fp.length)) 1
    else roundToDouble neg mant (10 ^ (fp.length - ex))

/-- Value of a digit of radix at most 16, if `c` is one. -/
def radixDigit (radix : Nat) (c : Char) : Option Nat :=
  let n := c.toNat
  let v := if 48 ≤ n ∧ n ≤ 57 then n - 48
           else if 97 ≤ n ∧ n ≤ 102 then n - 87
           else if 65 ≤ n ∧ n ≤ 70 then n - 55
           else 16
  if v < radix then some v else none

/-- Value of a non-empty run of digits of the given radix. -/
def radixValue (radix : Nat) (cs : List Char) : Option Nat :=
  if cs = [] then none
  else cs.foldl (fun a c => match a, radixDigit radix c with
    | some v, some d => some (radix * v + d)
    | _, _ => none) (some 0)

/-- The `NonDecimalIntegerLiteral` forms `0x..`, `0o..`, `0b..` (either case). -/
def parseNonDecimal (cs : List Char) : Option Nat :=
  match cs with
  | z :: c :: r =>
    if z = '0' then
      if c = 'x' ∨ c = 'X' then radixValue 16 r
      else if c = 'o' ∨ c = 'O' then radixValue 8 r
      else if c = 'b' ∨ c = 'B' then radixValue 2 r
      else none
    else none
  | _ => none

/-- The abstract operation `StringToNumber`: the result of `Number(s)` for a string. -/
def stringToNumber (s : String) : JSNumber :=
  let cs := trimEnd (trimStart s.toList)
  if cs = [] then JSNumber.fin false 0 0
  else match parseNonDecimal cs with
    | some v => roundToDouble false v 1
    | none =>
      match parseSigned cs with
      | some ((neg, u), []) => decValue neg u
      | _ => JSNumber.nan

/-- The result of `parseFloat(s)` for a string. -/
def parseFloatString (s : String) : JSNumber :=
  match parseSigned (trimStart s.toList) with
  | some ((neg, u), _) => decValue neg u
  | none => JSNumber.nan

/-! ## Number to text: `Number::toString` -/

/-- The fraction `num / den` multiplied by `10 ^ p`. -/
def scale10 (num den : Nat) (p : Int) : Nat × Nat :=
  if 0 ≤ p then (num * 10 ^ p.toNat, den) else (num, den * 10 ^ (-p).toNat)

/-- The integer `n` with `10 ^ (n - 1) ≤ num / den < 10 ^ n`, for a positive
fraction of binary64 magnitude. -/
def decimalExponent (num den : Nat) : Int :=
  if den ≤ num then
    match (List.range 400).find? (fun n => decide (num < den * 10 ^ (n + 1))) with
    | some n => (n : Int) + 1
    | none => 400
  else
    match (List.range 400).find? (fun j => decide (den ≤ num * 10 ^ (j + 1))) with
    | some j => -(j : Int)
    | none => -400

/-- Whether the decimal `s * 10 ^ (n - k)` converts to the positive binary64
value with significand `m` and exponent `e`. -/
def roundsTo (m e : Nat) (s : Nat) (n : Int) (k : Nat) : Bool :=
  let p := scale10 s 1 (n - k)
  decide (roundToDouble false p.1 p.2 = JSNumber.fin false m e)

/-- The `k`-digit decimal significand for `fin false m e`, if there is one: the
candidate nearest to the value (the even one on a tie) among the two integers
around `x * 10 ^ (k - n)`. -/
def digitsAt (m e : Nat) (n : Int) (k : Nat) : Option Nat :=
  let p := scale10 (m * 2 ^ e) (2 ^ 1074) (k - n)
  let lo := p.1 / p.2
  let hi := lo + 1
  let okLo := roundsTo m e lo n k
  let okHi := roundsTo m e hi n k
  if okLo ∧ okHi then
    (if 2 * p.1 < (lo + hi) * p.2 then some lo
     else if (lo + hi) * p.2 < 2 * p.1 then some hi
     else if lo % 2 = 0 then some lo else some hi)
  else if okLo then some lo
  else if okHi then some hi
  else none

/-- The shortest decimal significand `s` (with `k` digits) and the exponent `n`
such that `s * 10 ^ (n - k)` converts to `fin false m e`, for `0 < m`. -/
def shortestDecimal (m e : Nat) : Nat × Int :=
  let n := decimalExponent (m * 2 ^ e) (2 ^ 1074)
  match (List.range 17).findSome? (fun i => (digitsAt m e n (i + 1)).map (fun s => (s, i + 1))) with
  | some (s, k) => if s = 10 ^ k then (1, n + 1) else (s, n)
  | none => (0, n)

/-- The decimal digits of a natural number. -/
def natDigits (s : Nat) : List Char := Nat.toDigits 10 s

/-- Layout of the digits `ds` (of a significand with `k = ds.length` digits)
with decimal exponent `n`, as `Number::toString` prescribes. -/
def layoutDecimal (ds : List Char) (n : Int) : List Char :=
  let k : Int := ds.length
  if k ≤ n ∧ n ≤ 21 then ds ++ List.replicate (n - k).toNat '0'
  else if 0 < n ∧ n ≤ 21 then ds.take n.toNat ++ '.' :: ds.drop n.toNat
  else if -6 < n ∧ n ≤ 0 then '0' :: '.' :: (List.replicate (-n).toNat '0' ++ ds)
  else
    let ex := n - 1
    let sign := if 0 ≤ ex then '+' else '-'
    let mant := match ds with
      | [] => []
      | [d] => [d]
      | d :: r => d :: '.' :: r
    mant ++ 'e' :: sign :: natDigits ex.natAbs

/-- The operation `Number::toString` (radix 10): the result of `String(x)` for a number. -/
def numberToString : JSNumber → String
  | JSNumber.nan => "NaN"
  | JSNumber.inf false => "Infinity"
  | JSNumber.inf true => "-Infinity"
  | JSNumber.fin neg m e =>
    if m = 0 then "0"
    else
      let p := shortestDecimal m e
      String.mk ((if neg then ['-'] else []) ++ layoutDecimal (natDigits p.1) p.2)

/-! ## JavaScript values -/

/-- The values the functions of `dfr.js` are applied to: primitives and arrays. -/
inductive Value where
  | undefined : Value
  | null : Value
  | bool (b : Bool) : Value
  | num (x : JSNumber) : Value
  | str (s : String) : Value
  | arr (xs : List Value) : Value

mutual
/-- The result of `String(v)`: the string form of a value (`ToString`; an array is the join
of its elements with `,`). -/
def Value.toStr : Value → String
  | Value.undefined => "undefined"
  | Value.null => "null"
  | Value.bool true => "true"
  | Value.bool false => "false"
  | Value.num x => numberToString x
  | Value.str s => s
  | Value.arr xs => Value.joinStr xs
/-- The method `Array.prototype.join` with the separator `,`: `undefined` and `null`
elements give the empty string. -/
def Value.joinStr : List Value → String
  | [] => ""
  | Value.undefined :: r => Value.joinTail r
  | Value.null :: r => Value.joinTail r
  | x :: r => x.toStr ++ Value.joinTail r
/-- The rest of a join: every further element is preceded by the separator. -/
def Value.joinTail : List Value → String
  | [] => ""
  | Value.undefined :: r => "," ++ Value.joinTail r
  | Value.null :: r => "," ++ Value.joinTail r
  | x :: r => "," ++ x.toStr ++ Value.joinTail r
end

/-- The result of `Number(v)`: the numeric form of a value (`ToNumber`; an array goes through
its string form). -/
def Value.toNumber : Value → JSNumber
  | Value.undefined => JSNumber.nan
  | Value.null => JSNumber.fin false 0 0
  | Value.bool true => roundToDouble false 1 1
  | Value.bool false => JSNumber.fin false 0 0
  | Value.num x => x
  | Value.str s => stringToNumber s
  | Value.arr xs => stringToNumber (Value.arr xs).toStr

/-- The result of `parseFloat(v)`: the number at the head of the string form of `v`. -/
def parseFloat (v : Value) : JSNumber := parseFloatString v.toStr

/-- The test `typeof v === 'string'`. -/
def Value.isString : Value → Bool
  | Value.str _ => true
  | _ => false

/-- The test `Array.isArray(v)`. -/
def Value.isArray : Value → Bool
  | Value.arr _ => true
  | _ => false

/-! ## `validNumber` -/

/-- The test `/[+]|[.]$/.test(s)`: `s` has a `+` somewhere or ends with `.`. -/
def plusOrTrailingDot (s : String) : Bool :=
  s.toList.contains '+' || s.toList.getLast? == some '.'

/-- The function `validNumber(value)` of `dfr.js`. -/
def validNumber (value : Value) : Bool :=
  if plusOrTrailingDot value.toStr then false
  else
    let numberValue := value.toNumber
    !numberValue.isNaN && numberValue.isFinite &&
      numberToString numberValue == numberToString (parseFloat value)

/-! ## Tables -/

/-- The faults a call can raise. -/
inductive Fault where
  | typeError : Fault
  deriving DecidableEq, Repr

/-- The element read `xs[i]` of an array for an integer `i`: `undefined`
outside the array. -/
def getIndex (xs : List Value) (i : Int) : Value :=
  if 0 ≤ i then xs.getD i.toNat Value.undefined else Value.undefined

/-- The rows of an array whose elements are all arrays (`none` when some
element is not an array). -/
def asRows : List Value → Option (List (List Value))
  | [] => some []
  | Value.arr r :: t => (asRows t).map (fun rs => r :: rs)
  | _ :: _ => none

/-- The table held by a value: `none` unless the value is an array of arrays,
which is the condition `Array.isArray(dataframe) && dataframe.every(row =>
Array.isArray(row))`. -/
def asTable : Value → Option (List (List Value))
  | Value.arr xs => asRows xs
  | _ => none

/-- The value that is the table with the given rows. -/
def tableValue (rows : List (List Value)) : Value := Value.arr (rows.map Value.arr)

/-- Numeric equality of two numbers: `NaN` equals nothing and the two zeros
are equal. -/
def JSNumber.numEq : JSNumber → JSNumber → Bool
  | JSNumber.fin n1 m1 e1, JSNumber.fin n2 m2 e2 =>
    (m1 = 0 && m2 = 0) || (n1 = n2 && m1 * 2 ^ e1 = m2 * 2 ^ e2)
  | JSNumber.inf a, JSNumber.inf b => a = b
  | _, _ => false

/-- Strict equality `a === b` of a cell and a primitive: same type and same
value.  An array is equal only to itself as an object, which the embedding
does not track: an array is equal to no pattern. -/
def strictEq : Value → Value → Bool
  | Value.undefined, Value.undefined => true
  | Value.null, Value.null => true
  | Value.bool a, Value.bool b => a = b
  | Value.num a, Value.num b => a.numEq b
  | Value.str a, Value.str b => a = b
  | _, _ => false

/-! ## `createSlice` -/

/-- The function `createSlice(dataframe, columnIndex, pattern, exportColumns)` of `dfr.js`,
for an integer `columnIndex` and integer export columns.  Reading
`dataframe[0].length` of a table without rows is a `TypeError`. -/
def createSlice (dataframe : Value) (columnIndex : Int) (pattern : Value)
    (exportColumns : List Int) : Except Fault (List (List Value)) :=
  match asTable dataframe with
  | none => Except.ok []
  | some rows =>
    if columnIndex < 0 then Except.ok []
    else match rows with
      | [] => Except.error Fault.typeError
      | first :: _ =>
        if columnIndex ≥ (first.length : Int) then Except.ok []
        else
          let validExportCols :=
            exportColumns.filter (fun colIndex => colIndex ≥ 0 && colIndex < (first.length : Int))
          let includeAllColumns := validExportCols.length = 0
          let slicedData := rows.filter (fun row =>
            if strictEq pattern (Value.str "*") then true
            else strictEq (getIndex row columnIndex) pattern)
          let result := slicedData.map (fun row =>
            if includeAllColumns then row
            else validExportCols.map (fun colIndex => getIndex row colIndex))
          Except.ok result

/-! ## `convertToNumber` -/

/-- The loop body of `convertToNumber` over the rows from index 1 on, with the
running counter: a string cell at `col` that `isNaN` does not reject is
replaced by its `parseFloat`. -/
def convertRows (col : Int) : List (List Value) → Nat → List (List Value) × Nat
  | [], conversionCount => ([], conversionCount)
  | row :: rest, conversionCount =>
    let value := getIndex row col
    if value.isString && !value.toNumber.isNaN then
      let r := convertRows col rest (conversionCount + 1)
      (row.set col.toNat (Value.num (parseFloat value)) :: r.1, r.2)
    else
      let r := convertRows col rest conversionCount
      (row :: r.1, r.2)

/-- The function `convertToNumber(dataframe, col)` of `dfr.js` on a table whose rows are
distinct arrays: the table as the call leaves it, and the returned count.
Row 0 is not visited. -/
def convertToNumber (dataframe : List (List Value)) (col : Int) : List (List Value) × Nat :=
  match dataframe with
  | [] => ([], 0)
  | header :: rest =>
    let r := convertRows col rest 0
    (header :: r.1, r.2)

/-- Whether the text matches `^-?\d+(\.\d+)?$`: an optional minus sign, one or
more digits, and optionally a dot followed by one or more digits. -/
def matchesPlainDecimal (s : String) : Bool :=
  let body := if s.toList.head? = some '-' then s.toList.tail else s.toList
  let ip := body.takeWhile Char.isDigit
  let rest := body.dropWhile Char.isDigit
  !ip.isEmpty &&
    (rest.isEmpty ||
      (rest.head? == some '.' && !rest.tail.isEmpty && rest.tail.all Char.isDigit))

/-- Whether a character right after a run of digits can continue a numeric
literal or is trimmed away: a digit, the dot, an exponent or radix letter
(`1e5`, `0x0`, `0o0`, `0b0` are numeric forms) or white space. -/
def continuesLiteral (c : Char) : Bool :=
  c.isDigit || isStrWhiteSpace c || ".eExXoObB".toList.contains c

/-- The decimal text `1` followed by 309 zeros (the integer `10 ^ 309`). -/
def tenPow309Text : String := String.mk ('1' :: List.replicate 309 '0')

mutual
/-- Structural equality of two values, as a Boolean. -/
def Value.beq : Value → Value → Bool
  | Value.undefined, Value.undefined => true
  | Value.null, Value.null => true
  | Value.bool a, Value.bool b => a == b
  | Value.num a, Value.num b => a == b
  | Value.str a, Value.str b => a == b
  | Value.arr xs, Value.arr ys => Value.beqList xs ys
  | _, _ => false
/-- Structural equality of two lists of values. -/
def Value.beqList : List Value → List Value → Bool
  | [], [] => true
  | x :: xs, y :: ys => Value.beq x y && Value.beqList xs ys
  | _, _ => false
end

/-! ## Arithmetic on numbers -/

/-- The number as a multiple of `2 ^ -1074`, for a finite number (0 otherwise). -/
def JSNumber.toUnits : JSNumber → Int
  | JSNumber.fin neg m e => if neg then -((m * 2 ^ e : Nat) : Int) else ((m * 2 ^ e : Nat) : Int)
  | _ => 0

/-- The number value of a natural number (an array length, a counter, a
literal such as `2`). -/
def JSNumber.ofNat (n : Nat) : JSNumber := roundToDouble false n 1

/-- Unary minus. -/
def JSNumber.neg : JSNumber → JSNumber
  | JSNumber.nan => JSNumber.nan
  | JSNumber.inf s => JSNumber.inf (!s)
  | JSNumber.fin s m e => JSNumber.fin (!s) m e

/-- The sum `x + y` of two numbers: the exact sum rounded to nearest; an exact
zero sum is `+0` unless both operands are negative. -/
def JSNumber.add : JSNumber → JSNumber → JSNumber
  | JSNumber.nan, _ => JSNumber.nan
  | _, JSNumber.nan => JSNumber.nan
  | JSNumber.inf a, JSNumber.inf b => if a = b then JSNumber.inf a else JSNumber.nan
  | JSNumber.inf a, JSNumber.fin _ _ _ => JSNumber.inf a
  | JSNumber.fin _ _ _, JSNumber.inf b => JSNumber.inf b
  | JSNumber.fin n1 m1 e1, JSNumber.fin n2 m2 e2 =>
    let s := (JSNumber.fin n1 m1 e1).toUnits + (JSNumber.fin n2 m2 e2).toUnits
    if s = 0 then JSNumber.fin (n1 && n2) 0 0
    else roundToDouble (decide (s < 0)) s.natAbs (2 ^ 1074)

/-- The difference `x - y`. -/
def JSNumber.sub (x y : JSNumber) : JSNumber := x.add y.neg

/-- The quotient `x / y` of two numbers: the exact quotient rounded to
nearest, with the usual results for zeros and infinities. -/
def JSNumber.div : JSNumber → JSNumber → JSNumber
  | JSNumber.nan, _ => JSNumber.nan
  | _, JSNumber.nan => JSNumber.nan
  | JSNumber.inf _, JSNumber.inf _ => JSNumber.nan
  | JSNumber.inf a, JSNumber.fin b _ _ => JSNumber.inf (a != b)
  | JSNumber.fin a _ _, JSNumber.inf b => JSNumber.fin (a != b) 0 0
  | JSNumber.fin n1 m1 e1, JSNumber.fin n2 m2 e2 =>
    if m2 = 0 then (if m1 = 0 then JSNumber.nan else JSNumber.inf (n1 != n2))
    else roundToDouble (n1 != n2) (m1 * 2 ^ e1) (m2 * 2 ^ e2)

/-- The test `v > 0` on a number (false for `NaN`). -/
def JSNumber.isPositive : JSNumber → Bool
  | JSNumber.inf false => true
  | JSNumber.fin false m _ => m ≠ 0
  | _ => false

/-- The order `x ≤ y` of two finite numbers, by their exact values. -/
def JSNumber.le (x y : JSNumber) : Prop := x.toUnits ≤ y.toUnits

instance (x y : JSNumber) : Decidable (x.le y) := by
  unfold JSNumber.le
  exact inferInstance

/-- Whether the number is a binary64 value in the representation used here:
a significand below `2 ^ 53` and a biased exponent of at most 2045. -/
def JSNumber.isDouble : JSNumber → Bool
  | JSNumber.fin _ m e => decide (m < 2 ^ 53) && decide (e ≤ maxExp)
  | _ => true

/-! ## The aggregates `findTotal`, `calculateMean`, `calculateMedian` -/

/-- The function `findTotal(dataset)` of `dfr.js`. -/
def findTotal (dataset : Value) : JSNumber :=
  match dataset with
  | Value.arr xs =>
    if xs.any Value.isArray then JSNumber.fin false 0 0
    else xs.foldl (fun total value =>
      if validNumber value then total.add (parseFloat value) else total) (JSNumber.fin false 0 0)
  | _ => JSNumber.fin false 0 0

/-- The loop of `calculateMean`: the running total and the count of the valid
elements. -/
def meanLoop (xs : List Value) : JSNumber × Nat :=
  xs.foldl (fun acc value =>
    if validNumber value then (acc.1.add (parseFloat value), acc.2 + 1) else acc)
    (JSNumber.fin false 0 0, 0)

/-- The function `calculateMean(dataset)` of `dfr.js`. -/
def calculateMean (dataset : Value) : JSNumber :=
  match dataset with
  | Value.arr xs =>
    if xs.any Value.isArray then JSNumber.fin false 0 0
    else
      let r := meanLoop xs
      if r.2 > 0 then r.1.div (JSNumber.ofNat r.2) else JSNumber.fin false 0 0
  | _ => JSNumber.fin false 0 0

/-- The comparator `(a, b) => a - b` as the order it induces: `a` may stay
before `b` unless `a - b > 0`. -/
def compareFn (a b : JSNumber) : Prop := (a.sub b).isPositive = false

instance : DecidableRel compareFn := fun a b => by
  unfold compareFn
  exact inferInstance

/-- The call `validNumbers.sort((a, b) => a - b)`: a stable sort by the
comparator. -/
def sortNumbers (validNumbers : List JSNumber) : List JSNumber :=
  validNumbers.insertionSort compareFn

/-- The function `calculateMedian(dataset)` of `dfr.js`. -/
def calculateMedian (dataset : Value) : JSNumber :=
  match dataset with
  | Value.arr xs =>
    if xs.any Value.isArray then JSNumber.fin false 0 0
    else
      let validNumbers := sortNumbers ((xs.filter validNumber).map Value.toNumber)
      if validNumbers.length = 0 then JSNumber.fin false 0 0
      else
        let mid := validNumbers.length / 2
        if validNumbers.length % 2 ≠ 0 then validNumbers.getD mid JSNumber.nan
        else ((validNumbers.getD (mid - 1) JSNumber.nan).add
          (validNumbers.getD mid JSNumber.nan)).div (JSNumber.ofNat 2)
  | _ => JSNumber.fin false 0 0

/-! ## `flatten` and `dataDimensions` -/

/-- The function `flatten(dataframe)` of `dfr.js`. -/
def flatten (dataframe : Value) : List JSNumber :=
  match dataframe with
  | Value.arr rows =>
    if rows.any (fun row => match row with
        | Value.arr cells => cells.length ≠ 1
        | _ => true) then []
    else (rows.filter (fun row => match row with
        | Value.arr cells => validNumber (getIndex cells 0)
        | _ => false)).map (fun row => match row with
        | Value.arr cells => parseFloat (getIndex cells 0)
        | _ => JSNumber.nan)
  | _ => []

/-- The number of UTF-16 code units of a string, its `length`. -/
def utf16Length (s : String) : Nat :=
  (s.toList.map (fun c => if c.toNat < 0x10000 then 1 else 2)).sum

/-- The conversion `ToBoolean(v)`, the truthiness of a value. -/
def Value.truthy : Value → Bool
  | Value.undefined => false
  | Value.null => false
  | Value.bool b => b
  | Value.num (JSNumber.fin _ m _) => m ≠ 0
  | Value.num JSNumber.nan => false
  | Value.num (JSNumber.inf _) => true
  | Value.str s => s.toList ≠ []
  | Value.arr _ => true

/-- The property read `v.length` of a value that is not `undefined` or `null`. -/
def Value.lengthOf : Value → Value
  | Value.arr xs => Value.num (JSNumber.ofNat xs.length)
  | Value.str s => Value.num (JSNumber.ofNat (utf16Length s))
  | _ => Value.undefined

/-- The number `-1`. -/
def minusOne : JSNumber := roundToDouble true 1 1

/-- The function `dataDimensions(dataframe)` of `dfr.js`: the pair
`[rows, columns]`.  Only an array can have an array as element 0. -/
def dataDimensions (dataframe : Value) : Value × Value :=
  if !dataframe.truthy || strictEq dataframe.lengthOf (Value.num (JSNumber.fin false 0 0)) then
    (Value.num minusOne, Value.num minusOne)
  else
    let rows := dataframe.lengthOf
    let columns := match dataframe with
      | Value.arr (Value.arr cells :: _) => Value.num (JSNumber.ofNat cells.length)
      | _ => Value.num minusOne
    (rows, columns)


/-- The test `typeof value === 'string' && !isNaN(value)` that `convertToNumber`
applies to a cell. -/
def looseNumeric (value : Value) : Bool := value.isString && !value.toNumber.isNaN

/-- What `convertToNumber` does to one row of index at least 1. -/
def convertRow (col : Int) (row : List Value) : List Value :=
  if looseNumeric (getIndex row col) then
    row.set col.toNat (Value.num (parseFloat (getIndex row col)))
  else row


/-- The significand of `roundToDouble`: the quotient `bigN / den` rounded to
nearest, ties to even. -/
def roundedSignificand (bigN den : Nat) : Nat :=
  if 2 * (bigN % den) < den then bigN / den
  else if den < 2 * (bigN % den) then bigN / den + 1
  else bigN / den + bigN / den % 2

/-- The rounding step of `roundToDouble` for a non-zero fraction, given as
`bigN / d` in multiples of `2 ^ -1074`. -/
def roundFrom (neg : Bool) (bigN d : Nat) : JSNumber :=
  if maxExp < (if roundedSignificand bigN (d * 2 ^ binExp bigN d) = 2 ^ 53
      then binExp bigN d + 1 else binExp bigN d)
  then JSNumber.inf neg
  else JSNumber.fin neg
    (if roundedSignificand bigN (d * 2 ^ binExp bigN d) = 2 ^ 53 then 2 ^ 52
      else roundedSignificand bigN (d * 2 ^ binExp bigN d))
    (if roundedSignificand bigN (d * 2 ^ binExp bigN d) = 2 ^ 53
      then binExp bigN d + 1 else binExp bigN d)

/-- One step of the bisection in `binExp`. -/
def binStep (n d : Nat) (e b : Nat) : Nat := if d * 2 ^ (e + b + 52) ≤ n then e + b else e

/-- Each bit is at least 1 and at most one more than the sum of the bits after it. -/
def goodBits : List Nat → Prop
  | [] => True
  | b :: bs => 1 ≤ b ∧ b ≤ bs.sum + 1 ∧ goodBits bs


/-- The last step of `calculateMedian` on the sorted valid numbers. -/
def medianOf (validNumbers : List JSNumber) : JSNumber :=
  if validNumbers.length = 0 then JSNumber.fin false 0 0
  else if validNumbers.length % 2 ≠ 0 then
    validNumbers.getD (validNumbers.length / 2) JSNumber.nan
  else ((validNumbers.getD (validNumbers.length / 2 - 1) JSNumber.nan).add
    (validNumbers.getD (validNumbers.length / 2) JSNumber.nan)).div (JSNumber.ofNat 2)


/-! # Theorems -/

/-! ## Decidable equality of values -/

mutual
theorem Value.beq_iff : ∀ a b : Value, Value.beq a b = true ↔ a = b
  | Value.undefined, b => by cases b <;> simp [Value.beq]
  | Value.null, b => by cases b <;> simp [Value.beq]
  | Value.bool _, b => by cases b <;> simp [Value.beq]
  | Value.num _, b => by cases b <;> simp [Value.beq]
  | Value.str _, b => by cases b <;> simp [Value.beq]
  | Value.arr xs, Value.arr ys => by simp [Value.beq, Value.beqList_iff xs ys]
  | Value.arr _, Value.undefined => by simp [Value.beq]
  | Value.arr _, Value.null => by simp [Value.beq]
  | Value.arr _, Value.bool _ => by simp [Value.beq]
  | Value.arr _, Value.num _ => by simp [Value.beq]
  | Value.arr _, Value.str _ => by simp [Value.beq]
theorem Value.beqList_iff : ∀ xs ys : List Value, Value.beqList xs ys = true ↔ xs = ys
  | [], [] => by simp [Value.beqList]
  | [], _ :: _ => by simp [Value.beqList]
  | _ :: _, [] => by simp [Value.beqList]
  | x :: xs, y :: ys => by simp [Value.beqList, Value.beq_iff x y, Value.beqList_iff xs ys]
end

instance : DecidableEq Value := fun a b => decidable_of_iff _ (Value.beq_iff a b)

/-! ## Characters and runs of digits -/

theorem isDigit_toNat {c : Char} (h : c.isDigit = true) : 48 ≤ c.toNat ∧ c.toNat ≤ 57 := by
  simp only [Char.isDigit, Bool.and_eq_true, decide_eq_true_eq] at h
  exact ⟨h.1, h.2⟩

theorem ne_of_toNat_ne {c d : Char} (h : c.toNat ≠ d.toNat) : c ≠ d := by
  intro e
  exact h (by rw [e])

theorem isDigit_not_ws {c : Char} (h : c.isDigit = true) : isStrWhiteSpace c = false := by
  have := isDigit_toNat h
  simp only [isStrWhiteSpace]
  simp
  omega

theorem takeWhile_run {p : Char → Bool} (ds rest : List Char) (h : ∀ d ∈ ds, p d = true)
    (hr : rest.head?.all (fun c => !p c) = true) : (ds ++ rest).takeWhile p = ds := by
  induction ds with
  | nil =>
    cases rest with
    | nil => rfl
    | cons c t =>
      simp only [List.head?_cons, Option.all_some, Bool.not_eq_true'] at hr
      simp [List.takeWhile, hr]
  | cons d ds ih =>
    have hd := h d (List.mem_cons_self _ _)
    rw [List.cons_append, List.takeWhile_cons, hd]
    simp only [if_true]
    rw [ih (fun x hx => h x (List.mem_cons_of_mem _ hx))]

theorem dropWhile_run {p : Char → Bool} (ds rest : List Char) (h : ∀ d ∈ ds, p d = true)
    (hr : rest.head?.all (fun c => !p c) = true) : (ds ++ rest).dropWhile p = rest := by
  induction ds with
  | nil =>
    cases rest with
    | nil => rfl
    | cons c t =>
      simp only [List.head?_cons, Option.all_some, Bool.not_eq_true'] at hr
      simp [List.dropWhile, hr]
  | cons d ds ih =>
    have hd := h d (List.mem_cons_self _ _)
    rw [List.cons_append, List.dropWhile_cons, hd]
    simp only [if_true]
    rw [ih (fun x hx => h x (List.mem_cons_of_mem _ hx))]

theorem dropWhile_all {p : Char → Bool} (cs : List Char) (h : ∀ c ∈ cs, p c = true) :
    cs.dropWhile p = [] := by
  have := dropWhile_run cs [] h rfl
  simpa using this

theorem dropWhile_append_stop {p : Char → Bool} (a : List Char) (c : Char) (b : List Char)
    (hc : p c = false) : (a ++ c :: b).dropWhile p = a.dropWhile p ++ c :: b := by
  induction a with
  | nil => simp [List.dropWhile, hc]
  | cons x a ih =>
    cases hx : p x
    · simp [List.dropWhile, hx]
    · simp [List.dropWhile, hx, ih]

theorem trimEnd_append_stop (a : List Char) (c : Char) (b : List Char)
    (hc : isStrWhiteSpace c = false) : trimEnd (a ++ c :: b) = a ++ c :: trimEnd b := by
  simp only [trimEnd, List.reverse_append, List.reverse_cons, List.append_assoc,
    List.singleton_append]
  rw [dropWhile_append_stop _ _ _ hc]
  simp

/-! ## `validNumber` -/

theorem numberToString_zero_ne_nan :
    (numberToString (JSNumber.fin false 0 0) == numberToString JSNumber.nan) = false := by
  decide

theorem parseFloatString_of_blank (s : String) (h : ∀ c ∈ s.toList, isStrWhiteSpace c = true) :
    parseFloatString s = JSNumber.nan := by
  simp only [parseFloatString, trimStart, dropWhile_all _ h]
  rfl

theorem stringToNumber_of_blank (s : String) (h : ∀ c ∈ s.toList, isStrWhiteSpace c = true) :
    stringToNumber s = JSNumber.fin false 0 0 := by
  simp only [stringToNumber, trimStart, dropWhile_all _ h]
  rfl

theorem validNumber_of_blank (s : String) (h : ∀ c ∈ s.toList, isStrWhiteSpace c = true) :
    validNumber (Value.str s) = false := by
  simp only [validNumber, Value.toStr, Value.toNumber, parseFloat, stringToNumber_of_blank s h,
    parseFloatString_of_blank s h, numberToString_zero_ne_nan]
  simp

theorem isDigit_ne {d c : Char} (hd : d.isDigit = true) (hc : c.isDigit = false) : d ≠ c := by
  intro e
  rw [e, hc] at hd
  exact Bool.noConfusion hd

theorem infinity_no_match {d : Char} (hd : d.isDigit = true) (r : List Char) :
    "Infinity".toList.isPrefixOf (d :: r) = false := by
  have h : 'I' ≠ d := fun e => isDigit_ne hd (by decide) e.symm
  show ('I' :: "nfinity".toList).isPrefixOf (d :: r) = false
  simp [List.isPrefixOf, h]

theorem dropSign_digit {d : Char} (hd : d.isDigit = true) (r : List Char) :
    dropSign (d :: r) = d :: r := by
  have h1 : d ≠ '+' := isDigit_ne hd (by decide)
  have h2 : d ≠ '-' := isDigit_ne hd (by decide)
  simp [dropSign, h1, h2]

/-- Parsing a run of digits followed by a character that cannot continue a
decimal literal stops at that character. -/
theorem parseUnsigned_digits_stop (ip : List Char) (c : Char) (t : List Char)
    (hne : ip ≠ []) (hip : ∀ d ∈ ip, d.isDigit = true) (hc : c.isDigit = false)
    (hdot : c ≠ '.') (he : c ≠ 'e') (hE : c ≠ 'E') :
    parseUnsigned (ip ++ c :: t) = some (UDec.dec ip [] false 0, c :: t) := by
  obtain ⟨d, ds, rfl⟩ := List.exists_cons_of_ne_nil hne
  have hd := hip d (List.mem_cons_self _ _)
  have hstop : (c :: t).head?.all (fun x => !x.isDigit) = true := by simp [hc]
  have htake := takeWhile_run (d :: ds) (c :: t) hip hstop
  have hdrop := dropWhile_run (d :: ds) (c :: t) hip hstop
  have hinf := infinity_no_match hd (ds ++ c :: t)
  rw [List.cons_append] at htake hdrop
  simp only [parseUnsigned, List.cons_append, hinf, htake, hdrop]
  simp [hdot, parseExponent, he, hE]

/-- Parsing a run of digits that ends the text. -/
theorem parseUnsigned_digits (ip : List Char)
    (hne : ip ≠ []) (hip : ∀ d ∈ ip, d.isDigit = true) :
    parseUnsigned ip = some (UDec.dec ip [] false 0, []) := by
  obtain ⟨d, ds, rfl⟩ := List.exists_cons_of_ne_nil hne
  have hd := hip d (List.mem_cons_self _ _)
  have htake := takeWhile_run (d :: ds) [] hip rfl
  have hdrop := dropWhile_run (d :: ds) [] hip rfl
  have hinf := infinity_no_match hd ds
  rw [List.append_nil] at htake hdrop
  simp only [parseUnsigned, hinf, htake, hdrop]
  simp [parseExponent]

/-- Parsing digits, a dot and a non-empty run of digits that ends the text. -/
theorem parseUnsigned_digits_dot_digits (ip fp : List Char)
    (hne : ip ≠ []) (hip : ∀ d ∈ ip, d.isDigit = true) (hfp : ∀ d ∈ fp, d.isDigit = true) :
    parseUnsigned (ip ++ '.' :: fp) = some (UDec.dec ip fp false 0, []) := by
  obtain ⟨d, ds, rfl⟩ := List.exists_cons_of_ne_nil hne
  have hd := hip d (List.mem_cons_self _ _)
  have hstop : ('.' :: fp).head?.all (fun x => !x.isDigit) = true := rfl
  have htake := takeWhile_run (d :: ds) ('.' :: fp) hip hstop
  have hdrop := dropWhile_run (d :: ds) ('.' :: fp) hip hstop
  have hinf := infinity_no_match hd (ds ++ '.' :: fp)
  have htake2 := takeWhile_run fp [] hfp rfl
  have hdrop2 := dropWhile_run fp [] hfp rfl
  rw [List.append_nil] at htake2 hdrop2
  rw [List.cons_append] at htake hdrop
  simp only [parseUnsigned, List.cons_append, hinf, htake, hdrop]
  simp [htake2, hdrop2, parseExponent]

theorem trimStart_digit {d : Char} (hd : d.isDigit = true) (r : List Char) :
    trimStart (d :: r) = d :: r := by
  simp [trimStart, List.dropWhile_cons, isDigit_not_ws hd]

theorem trimEnd_of_getLast (cs : List Char)
    (h : ∀ c, cs.getLast? = some c → isStrWhiteSpace c = false) : trimEnd cs = cs := by
  rcases List.eq_nil_or_concat cs with rfl | ⟨a, c, rfl⟩
  · rfl
  · have hc := h c (by simp)
    have := trimEnd_append_stop a c [] hc
    simpa [trimEnd] using this

theorem parseNonDecimal_digits_stop (ip : List Char) (c : Char) (t : List Char)
    (hne : ip ≠ []) (hip : ∀ d ∈ ip, d.isDigit = true)
    (hx : c ≠ 'x' ∧ c ≠ 'X' ∧ c ≠ 'o' ∧ c ≠ 'O' ∧ c ≠ 'b' ∧ c ≠ 'B') :
    parseNonDecimal (ip ++ c :: t) = none := by
  obtain ⟨d, ds, rfl⟩ := List.exists_cons_of_ne_nil hne
  cases ds with
  | nil => simp [parseNonDecimal, hx]
  | cons d2 ds =>
    have hd2 := hip d2 (by simp)
    have h1 : d2 ≠ 'x' := isDigit_ne hd2 (by decide)
    have h2 : d2 ≠ 'X' := isDigit_ne hd2 (by decide)
    have h3 : d2 ≠ 'o' := isDigit_ne hd2 (by decide)
    have h4 : d2 ≠ 'O' := isDigit_ne hd2 (by decide)
    have h5 : d2 ≠ 'b' := isDigit_ne hd2 (by decide)
    have h6 : d2 ≠ 'B' := isDigit_ne hd2 (by decide)
    simp [parseNonDecimal, h1, h2, h3, h4, h5, h6]

theorem parseSigned_digit {d : Char} (hd : d.isDigit = true) (r : List Char) :
    parseSigned (d :: r) = (parseUnsigned (d :: r)).map (fun p => ((false, p.1), p.2)) := by
  have h2 : d ≠ '-' := isDigit_ne hd (by decide)
  simp [parseSigned, dropSign_digit hd, h2]

/-- The conversion `Number(s)` is `NaN` for a run of digits followed by a character that
cannot continue a numeric literal. -/
theorem stringToNumber_digits_then_text (ip : List Char) (c : Char) (t : List Char)
    (hne : ip ≠ []) (hip : ∀ d ∈ ip, d.isDigit = true) (hc : c.isDigit = false)
    (hws : isStrWhiteSpace c = false) (hdot : c ≠ '.') (he : c ≠ 'e' ∧ c ≠ 'E')
    (hx : c ≠ 'x' ∧ c ≠ 'X' ∧ c ≠ 'o' ∧ c ≠ 'O' ∧ c ≠ 'b' ∧ c ≠ 'B') :
    stringToNumber (String.mk (ip ++ c :: t)) = JSNumber.nan := by
  obtain ⟨d, ds, hds⟩ := List.exists_cons_of_ne_nil hne
  have hd : d.isDigit = true := hip d (by simp [hds])
  have h1 : trimStart (ip ++ c :: t) = ip ++ c :: t := by
    rw [hds, List.cons_append]
    exact trimStart_digit hd _
  have h2 : trimEnd (ip ++ c :: t) = ip ++ c :: trimEnd t := trimEnd_append_stop ip c t hws
  have h3 := parseNonDecimal_digits_stop ip c (trimEnd t) hne hip hx
  have h4 : parseSigned (ip ++ c :: trimEnd t)
      = some ((false, UDec.dec ip [] false 0), c :: trimEnd t) := by
    have := parseUnsigned_digits_stop ip c (trimEnd t) hne hip hc hdot he.1 he.2
    rw [hds, List.cons_append] at this ⊢
    rw [parseSigned_digit hd, this]
    rfl
  have h5 : ip ++ c :: trimEnd t ≠ [] := by simp
  simp only [stringToNumber, String.toList, h1, h2, h3, h4, h5, if_false]

theorem validNumber_of_nan (s : String) (h : stringToNumber s = JSNumber.nan) :
    validNumber (Value.str s) = false := by
  simp [validNumber, Value.toNumber, h, JSNumber.isNaN]

theorem inf_or_fin_isNaN (c : Prop) [Decidable c] (neg : Bool) (m e : Nat) :
    (if c then JSNumber.inf neg else JSNumber.fin neg m e).isNaN = false := by
  split <;> rfl

theorem roundToDouble_isNaN (neg : Bool) (n d : Nat) : (roundToDouble neg n d).isNaN = false := by
  unfold roundToDouble
  split
  · rfl
  · exact inf_or_fin_isNaN _ _ _ _

theorem decValue_dec_isNaN (neg : Bool) (ip fp : List Char) (eneg : Bool) (ex : Nat) :
    (decValue neg (UDec.dec ip fp eneg ex)).isNaN = false := by
  simp only [decValue]
  split
  · exact roundToDouble_isNaN _ _ _
  · split <;> exact roundToDouble_isNaN _ _ _

/-- The shape of the texts `matchesPlainDecimal` accepts: a sign, a non-empty
run of digits, and nothing or a dot with a non-empty run of digits. -/
theorem matchesPlainDecimal_shape (s : String) (h : matchesPlainDecimal s = true) :
    ∃ (sign ip frac fp : List Char), s.toList = sign ++ (ip ++ frac) ∧
      (sign = [] ∨ sign = ['-']) ∧ ip ≠ [] ∧ (∀ d ∈ ip, d.isDigit = true) ∧
      (∀ d ∈ fp, d.isDigit = true) ∧ ((frac = [] ∧ fp = []) ∨ (frac = '.' :: fp ∧ fp ≠ [])) := by
  simp only [matchesPlainDecimal, Bool.and_eq_true, Bool.or_eq_true, Bool.not_eq_true',
    List.isEmpty_eq_false, List.isEmpty_iff, beq_iff_eq] at h
  obtain ⟨hip, hrest⟩ := h
  generalize hb : (if s.toList.head? = some '-' then s.toList.tail else s.toList) = body at hip hrest
  have hsign : ∃ sign, s.toList = sign ++ body ∧ (sign = [] ∨ sign = ['-']) := by
    by_cases hm : s.toList.head? = some '-'
    · rw [if_pos hm] at hb
      refine ⟨['-'], ?_, Or.inr rfl⟩
      cases hs : s.toList with
      | nil => rw [hs] at hm; simp at hm
      | cons c t =>
        rw [hs] at hm hb
        simp only [List.head?_cons, Option.some.injEq] at hm
        simp only [List.tail_cons] at hb
        rw [hm, hb]
        rfl
    · rw [if_neg hm] at hb
      exact ⟨[], by rw [hb]; rfl, Or.inl rfl⟩
  obtain ⟨sign, hs, hsg⟩ := hsign
  have hsplit : body = body.takeWhile Char.isDigit ++ body.dropWhile Char.isDigit :=
    (List.takeWhile_append_dropWhile _ _).symm
  have hdig : ∀ d ∈ body.takeWhile Char.isDigit, d.isDigit = true :=
    fun d hd => List.mem_takeWhile_imp hd
  rcases hrest with hnil | ⟨⟨hdot, hne⟩, hall⟩
  · refine ⟨sign, body.takeWhile Char.isDigit, [], [], ?_, hsg, hip, hdig, by simp, Or.inl ⟨rfl, rfl⟩⟩
    rw [hs]
    conv_lhs => rw [hsplit, hnil]
  · cases hr : body.dropWhile Char.isDigit with
    | nil => rw [hr] at hdot; simp at hdot
    | cons c fp =>
      rw [hr] at hdot hne hall
      simp only [List.head?_cons, Option.some.injEq] at hdot
      simp only [List.tail_cons] at hne hall
      refine ⟨sign, body.takeWhile Char.isDigit, '.' :: fp, fp, ?_, hsg, hip, hdig, ?_,
        Or.inr ⟨rfl, hne⟩⟩
      · rw [hs]
        conv_lhs => rw [hsplit, hr, hdot]
      · intro d hd
        exact List.all_eq_true.mp hall d hd

theorem parseNonDecimal_of_second (cs : List Char)
    (h : ∀ c, cs.tail.head? = some c →
      c ≠ 'x' ∧ c ≠ 'X' ∧ c ≠ 'o' ∧ c ≠ 'O' ∧ c ≠ 'b' ∧ c ≠ 'B') :
    parseNonDecimal cs = none := by
  match cs with
  | [] => rfl
  | [_] => rfl
  | z :: c :: r =>
    have hc := h c rfl
    simp [parseNonDecimal, hc]

theorem parseNonDecimal_of_first (cs : List Char) (h : cs.head? ≠ some '0') :
    parseNonDecimal cs = none := by
  match cs with
  | [] => rfl
  | [_] => rfl
  | z :: c :: r =>
    have hz : z ≠ '0' := fun e => h (by rw [e]; rfl)
    simp [parseNonDecimal, hz]

theorem digit_not_radix_letter {c : Char} (hc : c.isDigit = true) :
    c ≠ 'x' ∧ c ≠ 'X' ∧ c ≠ 'o' ∧ c ≠ 'O' ∧ c ≠ 'b' ∧ c ≠ 'B' :=
  ⟨isDigit_ne hc (by decide), isDigit_ne hc (by decide), isDigit_ne hc (by decide),
   isDigit_ne hc (by decide), isDigit_ne hc (by decide), isDigit_ne hc (by decide)⟩

/-- What `Number`, `parseFloat` and the rejection test give on a text of the
shape sign, digits, optional fraction. -/
theorem plain_decimal_parse (s : String) (sign ip frac fp : List Char)
    (hs : s.toList = sign ++ (ip ++ frac)) (hsign : sign = [] ∨ sign = ['-'])
    (hne : ip ≠ []) (hip : ∀ d ∈ ip, d.isDigit = true) (hfp : ∀ d ∈ fp, d.isDigit = true)
    (hfrac : (frac = [] ∧ fp = []) ∨ (frac = '.' :: fp ∧ fp ≠ [])) :
    stringToNumber s = decValue (decide (sign = ['-'])) (UDec.dec ip fp false 0) ∧
    parseFloatString s = decValue (decide (sign = ['-'])) (UDec.dec ip fp false 0) ∧
    plusOrTrailingDot s = false := by
  obtain ⟨d, ds, hds⟩ := List.exists_cons_of_ne_nil hne
  have hd : d.isDigit = true := hip d (by simp [hds])
  -- the unsigned literal
  have hU : parseUnsigned (ip ++ frac) = some (UDec.dec ip fp false 0, []) := by
    rcases hfrac with ⟨h1, h2⟩ | ⟨h1, _⟩
    · rw [h1, h2, List.append_nil]; exact parseUnsigned_digits ip hne hip
    · rw [h1]; exact parseUnsigned_digits_dot_digits ip fp hne hip hfp
  -- the signed literal
  have hS : parseSigned (sign ++ (ip ++ frac))
      = some ((decide (sign = ['-']), UDec.dec ip fp false 0), []) := by
    rcases hsign with h | h
    · subst h
      have : parseSigned (ip ++ frac) = some ((false, UDec.dec ip fp false 0), []) := by
        rw [hds, List.cons_append] at hU ⊢
        rw [parseSigned_digit hd, hU]; rfl
      simpa using this
    · subst h
      simp [parseSigned, dropSign, hU]
  -- the last character is a digit
  have hlast : ∃ a c, ip ++ frac = a ++ [c] ∧ c.isDigit = true := by
    rcases hfrac with ⟨h1, _⟩ | ⟨h1, h2⟩
    · rcases List.eq_nil_or_concat ip with h | ⟨a, c, h⟩
      · exact absurd h hne
      · exact ⟨a, c, by rw [h1, List.append_nil, h, List.concat_eq_append], hip c (by simp [h])⟩
    · rcases List.eq_nil_or_concat fp with h | ⟨a, c, h⟩
      · exact absurd h h2
      · exact ⟨ip ++ '.' :: a, c, by rw [h1, h]; simp, hfp c (by simp [h])⟩
  obtain ⟨a, c, hac, hc⟩ := hlast
  have hstart : trimStart (sign ++ (ip ++ frac)) = sign ++ (ip ++ frac) := by
    rcases hsign with h | h
    · subst h
      rw [hds]
      exact trimStart_digit hd _
    · subst h
      simp [trimStart, List.dropWhile_cons, isStrWhiteSpace]
  have hend : trimEnd (sign ++ (ip ++ frac)) = sign ++ (ip ++ frac) := by
    apply trimEnd_of_getLast
    intro x hx
    rw [hac, ← List.append_assoc, List.getLast?_concat] at hx
    cases hx
    exact isDigit_not_ws hc
  have hnonempty : sign ++ (ip ++ frac) ≠ [] := by simp [hne]
  have hradix : parseNonDecimal (sign ++ (ip ++ frac)) = none := by
    rcases hsign with h | h
    · subst h
      apply parseNonDecimal_of_second
      intro x hx
      rw [hds] at hx
      simp only [List.nil_append, List.cons_append, List.tail_cons] at hx
      cases ds with
      | nil =>
        rcases hfrac with ⟨h1, _⟩ | ⟨h1, _⟩
        · rw [h1] at hx; simp at hx
        · rw [h1] at hx
          simp only [List.nil_append, List.head?_cons, Option.some.injEq] at hx
          subst hx
          decide
      | cons d2 ds2 =>
        simp only [List.cons_append, List.head?_cons, Option.some.injEq] at hx
        subst hx
        exact digit_not_radix_letter (hip _ (by simp [hds]))
    · subst h
      apply parseNonDecimal_of_first
      simp
  refine ⟨?_, ?_, ?_⟩
  · simp only [stringToNumber, hs, hstart, hend, hnonempty, hradix, hS, if_false]
  · simp only [parseFloatString, hs, hstart, hS]
  · have hplus : ∀ x ∈ sign ++ (ip ++ frac), x ≠ '+' := by
      intro x hx
      rcases List.mem_append.mp hx with h | h
      · rcases hsign with h' | h'
        · rw [h'] at h; simp at h
        · rw [h'] at h
          simp only [List.mem_singleton] at h
          rw [h]; decide
      · rcases List.mem_append.mp h with h | h
        · exact isDigit_ne (hip x h) (by decide)
        · rcases hfrac with ⟨h1, _⟩ | ⟨h1, _⟩
          · rw [h1] at h; simp at h
          · rw [h1] at h
            rcases List.mem_cons.mp h with h | h
            · rw [h]; decide
            · exact isDigit_ne (hfp x h) (by decide)
    have hl : (sign ++ (ip ++ frac)).getLast? = some c := by
      rw [hac, ← List.append_assoc, List.getLast?_concat]
    have hcdot : c ≠ '.' := isDigit_ne hc (by decide)
    simp only [plusOrTrailingDot, hs, hl]
    simp only [Bool.or_eq_false_iff]
    refine ⟨?_, ?_⟩
    · simp only [List.contains_eq_any_beq, List.any_eq_false, beq_iff_eq]
      intro x hx e
      exact hplus x hx e.symm
    · simp [hcdot]

/-! ## Claims on `validNumber` -/

/-- C1: for every value whose string form contains `+` anywhere or ends with
`.`, `validNumber` returns false. -/
theorem validNumber_rejects_plus_or_trailing_dot (v : Value)
    (h : '+' ∈ v.toStr.toList ∨ v.toStr.toList.getLast? = some '.') :
    validNumber v = false := by
  have ht : plusOrTrailingDot v.toStr = true := by
    simp only [plusOrTrailingDot, Bool.or_eq_true, List.contains_eq_any_beq, List.any_eq_true,
      beq_iff_eq]
    rcases h with h | h
    · exact Or.inl ⟨'+', h, rfl⟩
    · exact Or.inr h
  simp [validNumber, ht]

/-- The strings `+5`, `1e+5` and `5.` are rejected by `validNumber`, as is the
number `1e21`, whose string form is `1e+21`. -/
theorem validNumber_rejects_plus_or_trailing_dot_witness :
    validNumber (Value.str "+5") = false ∧ validNumber (Value.str "1e+5") = false ∧
    validNumber (Value.str "5.") = false ∧
    validNumber (Value.num (stringToNumber "1e21")) = false :=
  ⟨validNumber_rejects_plus_or_trailing_dot (Value.str "+5") (Or.inl (by decide)),
   validNumber_rejects_plus_or_trailing_dot (Value.str "1e+5") (Or.inl (by decide)),
   validNumber_rejects_plus_or_trailing_dot (Value.str "5.") (Or.inr (by decide)),
   validNumber_rejects_plus_or_trailing_dot (Value.num (stringToNumber "1e21"))
     (Or.inl (by decide!))⟩

/-- C2, as stated, fails: the text `1` followed by 309 zeros matches
`^-?\d+(\.\d+)?$`, its numeric conversion is `Infinity`, and `validNumber`
rejects it. -/
theorem validNumber_plain_decimal_overflow :
    matchesPlainDecimal tenPow309Text = true ∧
    stringToNumber tenPow309Text = JSNumber.inf false ∧
    validNumber (Value.str tenPow309Text) = false := by
  decide!

/-- C2, amended: for every string matching `^-?\d+(\.\d+)?$`, of any length,
`validNumber` returns true exactly when the numeric conversion of the string
is finite (it is `Infinity` or `-Infinity` when the magnitude overflows
binary64). -/
theorem validNumber_plain_decimal (s : String) (h : matchesPlainDecimal s = true) :
    validNumber (Value.str s) = true ↔ (stringToNumber s).isFinite = true := by
  obtain ⟨sign, ip, frac, fp, hs, hsign, hne, hip, hfp, hfrac⟩ := matchesPlainDecimal_shape s h
  obtain ⟨h1, h2, h3⟩ := plain_decimal_parse s sign ip frac fp hs hsign hne hip hfp hfrac
  have hnan := decValue_dec_isNaN (decide (sign = ['-'])) ip fp false 0
  simp only [validNumber, Value.toStr, Value.toNumber, parseFloat, h3, h2]
  rw [h1]
  simp [hnan]

/-- The string `-3.25` matches the pattern, converts to a finite number and is
accepted; so are `42`, `-3.14` and `0`. -/
theorem validNumber_plain_decimal_witness :
    matchesPlainDecimal "-3.25" = true ∧ validNumber (Value.str "-3.25") = true ∧
    validNumber (Value.str "42") = true ∧ validNumber (Value.str "-3.14") = true ∧
    validNumber (Value.str "0") = true :=
  ⟨by decide,
   (validNumber_plain_decimal "-3.25" (by decide)).mpr (by decide!),
   (validNumber_plain_decimal "42" (by decide)).mpr (by decide!),
   (validNumber_plain_decimal "-3.14" (by decide)).mpr (by decide!),
   (validNumber_plain_decimal "0" (by decide)).mpr (by decide!)⟩

/-- C3: `validNumber` returns false for the empty string, for every string made
only of white space, for `NaN`, for `Infinity`, and for every run of digits
followed by text whose first character cannot continue a numeric literal
(such as `5abc`); the numeric conversion of the empty string is the finite
number `+0`. -/
theorem validNumber_rejects_non_numbers :
    validNumber (Value.str "") = false ∧
    (∀ s : String, (∀ c ∈ s.toList, isStrWhiteSpace c = true) →
      validNumber (Value.str s) = false) ∧
    validNumber (Value.str "NaN") = false ∧
    validNumber (Value.str "Infinity") = false ∧
    (∀ (ds : List Char) (c : Char) (t : List Char), ds ≠ [] → (∀ d ∈ ds, d.isDigit = true) →
      continuesLiteral c = false →
      validNumber (Value.str (String.mk (ds ++ c :: t))) = false) ∧
    validNumber (Value.str "5abc") = false ∧
    (Value.str "").toNumber = JSNumber.fin false 0 0 ∧
    (Value.str "").toNumber.isFinite = true := by
  refine ⟨by decide, validNumber_of_blank, by decide, by decide, ?_, by decide, by decide,
    by decide⟩
  intro ds c t hne hds hc
  simp only [continuesLiteral, Bool.or_eq_false_iff, List.contains_eq_any_beq,
    List.any_eq_false, beq_iff_eq] at hc
  obtain ⟨⟨hdig, hws⟩, hlist⟩ := hc
  have hn : ∀ x ∈ ".eExXoObB".toList, c ≠ x := fun x hx e => hlist x hx e
  apply validNumber_of_nan
  exact stringToNumber_digits_then_text ds c t hne hds hdig hws (hn '.' (by decide))
    ⟨hn 'e' (by decide), hn 'E' (by decide)⟩
    ⟨hn 'x' (by decide), hn 'X' (by decide), hn 'o' (by decide), hn 'O' (by decide),
      hn 'b' (by decide), hn 'B' (by decide)⟩

/-- The strings of two spaces and of a tab and a line feed are rejected, and so
is `5abc`, a digit followed by `abc`. -/
theorem validNumber_rejects_non_numbers_witness :
    validNumber (Value.str "  ") = false ∧ validNumber (Value.str "\t\n") = false ∧
    validNumber (Value.str (String.mk (['5'] ++ 'a' :: ['b', 'c']))) = false :=
  ⟨validNumber_rejects_non_numbers.2.1 "  " (by decide),
   validNumber_rejects_non_numbers.2.1 "\t\n" (by decide),
   validNumber_rejects_non_numbers.2.2.2.2.1 ['5'] 'a' ['b', 'c'] (by decide) (by decide)
     (by decide)⟩

/-! ## Claims on `createSlice` -/

theorem asRows_map_arr (rows : List (List Value)) : asRows (rows.map Value.arr) = some rows := by
  induction rows with
  | nil => rfl
  | cons r rs ih => simp [asRows, ih]

theorem asTable_tableValue (rows : List (List Value)) : asTable (tableValue rows) = some rows :=
  asRows_map_arr rows

theorem strictEq_star (pattern : Value) :
    strictEq pattern (Value.str "*") = true ↔ pattern = Value.str "*" := by
  cases pattern <;> simp [strictEq]

/-- What `createSlice` computes on a table with a first row and an in-bounds
column index. -/
theorem createSlice_in_bounds (first : List Value) (rest : List (List Value)) (columnIndex : Int)
    (pattern : Value) (exportColumns : List Int)
    (hlo : 0 ≤ columnIndex) (hhi : columnIndex < first.length) :
    createSlice (tableValue (first :: rest)) columnIndex pattern exportColumns =
      Except.ok (((first :: rest).filter (fun row =>
          if strictEq pattern (Value.str "*") then true
          else strictEq (getIndex row columnIndex) pattern)).map (fun row =>
        if (exportColumns.filter
            (fun colIndex => colIndex ≥ 0 && colIndex < (first.length : Int))).length = 0
        then row
        else (exportColumns.filter
            (fun colIndex => colIndex ≥ 0 && colIndex < (first.length : Int))).map
              (fun colIndex => getIndex row colIndex))) := by
  have h1 : ¬ columnIndex < 0 := not_lt.mpr hlo
  have h2 : ¬ columnIndex ≥ (first.length : Int) := not_le.mpr hhi
  simp only [createSlice, asTable_tableValue, h1, h2, if_false]

theorem filter_out_of_range (exportColumns : List Int) (w : Nat)
    (h : ∀ c ∈ exportColumns, ¬ (0 ≤ c ∧ c < (w : Int))) :
    exportColumns.filter (fun colIndex => colIndex ≥ 0 && colIndex < (w : Int)) = [] := by
  rw [List.filter_eq_nil_iff]
  intro c hc
  simpa using h c hc

/-- C4 fails on the code: on the table with no rows and a column index that is
not negative, `createSlice` reads `dataframe[0].length` of `undefined` and
raises a `TypeError` instead of returning the empty table; with a negative
column index the empty table is returned. -/
theorem createSlice_empty_table_fault :
    createSlice (Value.arr []) 0 (Value.str "*") [] = Except.error Fault.typeError ∧
    createSlice (Value.arr []) 0 (Value.str "a") [0] = Except.error Fault.typeError ∧
    createSlice (Value.arr []) (-1) (Value.str "*") [] = Except.ok [] :=
  ⟨rfl, rfl, rfl⟩

/-- C5: on a table whose rows are all sequences, with an in-bounds column index
and no in-range export column, `createSlice` returns all rows unchanged and in
order when the pattern is `"*"`, and otherwise exactly the rows (row 0
included) whose cell at the column index is strictly equal to the pattern, in
their order; a number is never strictly equal to a string. -/
theorem createSlice_rows (first : List Value) (rest : List (List Value)) (columnIndex : Int)
    (pattern : Value) (exportColumns : List Int)
    (hlo : 0 ≤ columnIndex) (hhi : columnIndex < first.length)
    (hexp : ∀ c ∈ exportColumns, ¬ (0 ≤ c ∧ c < (first.length : Int))) :
    (pattern = Value.str "*" →
      createSlice (tableValue (first :: rest)) columnIndex pattern exportColumns
        = Except.ok (first :: rest)) ∧
    (pattern ≠ Value.str "*" →
      createSlice (tableValue (first :: rest)) columnIndex pattern exportColumns
        = Except.ok ((first :: rest).filter
            (fun row => strictEq (getIndex row columnIndex) pattern))) ∧
    (∀ (x : JSNumber) (s : String),
      strictEq (Value.num x) (Value.str s) = false ∧
      strictEq (Value.str s) (Value.num x) = false) := by
  have hall := filter_out_of_range exportColumns first.length hexp
  have hmain := createSlice_in_bounds first rest columnIndex pattern exportColumns hlo hhi
  rw [hall] at hmain
  simp only [List.length_nil, if_true, List.map_id'] at hmain
  refine ⟨?_, ?_, fun x s => ⟨rfl, rfl⟩⟩
  · intro hp
    rw [hmain, (strictEq_star pattern).mpr hp]
    simp
  · intro hp
    have hs : strictEq pattern (Value.str "*") = false := by
      cases h : strictEq pattern (Value.str "*")
      · rfl
      · exact absurd ((strictEq_star pattern).mp h) hp
    rw [hmain, hs]
    simp

/-- The example of the specification: slicing the three-row table on column 0
with the pattern `"a"` gives the row `["a","1"]`, and the pattern `"*"` gives
the three rows. -/
theorem createSlice_rows_witness :
    createSlice (tableValue [[Value.str "h1", Value.str "h2"], [Value.str "a", Value.str "1"],
        [Value.str "b", Value.str "2"]]) 0 (Value.str "a") []
      = Except.ok [[Value.str "a", Value.str "1"]] ∧
    createSlice (tableValue [[Value.str "h1", Value.str "h2"], [Value.str "a", Value.str "1"],
        [Value.str "b", Value.str "2"]]) 0 (Value.str "*") [5]
      = Except.ok [[Value.str "h1", Value.str "h2"], [Value.str "a", Value.str "1"],
        [Value.str "b", Value.str "2"]] :=
  ⟨(createSlice_rows [Value.str "h1", Value.str "h2"]
      [[Value.str "a", Value.str "1"], [Value.str "b", Value.str "2"]] 0 (Value.str "a") []
      (by decide) (by decide) (by simp)).2.1 (by simp),
   (createSlice_rows [Value.str "h1", Value.str "h2"]
      [[Value.str "a", Value.str "1"], [Value.str "b", Value.str "2"]] 0 (Value.str "*") [5]
      (by decide) (by decide) (by simp)).1 rfl⟩

/-- C6: on a valid table with an in-bounds column index, when some export
column lies in `[0, width of the first row)`, every row of the result is the
list of the kept row's cells at the in-range export columns, in the order
given (duplicates kept), and so has as many cells as there are in-range
entries. -/
theorem createSlice_projection (first : List Value) (rest : List (List Value))
    (columnIndex : Int) (pattern : Value) (exportColumns : List Int)
    (hlo : 0 ≤ columnIndex) (hhi : columnIndex < first.length)
    (hexp : ∃ c ∈ exportColumns, 0 ≤ c ∧ c < (first.length : Int)) :
    createSlice (tableValue (first :: rest)) columnIndex pattern exportColumns
      = Except.ok (((first :: rest).filter (fun row =>
          strictEq pattern (Value.str "*") || strictEq (getIndex row columnIndex) pattern)).map
          (fun row => (exportColumns.filter (fun c => 0 ≤ c ∧ c < (first.length : Int))).map
            (fun c => getIndex row c))) ∧
    ∀ out, createSlice (tableValue (first :: rest)) columnIndex pattern exportColumns
        = Except.ok out →
      ∀ r ∈ out,
        r.length = (exportColumns.filter (fun c => 0 ≤ c ∧ c < (first.length : Int))).length := by
  have hmain := createSlice_in_bounds first rest columnIndex pattern exportColumns hlo hhi
  have hfilter : exportColumns.filter
      (fun colIndex => colIndex ≥ 0 && colIndex < (first.length : Int))
      = exportColumns.filter (fun c => 0 ≤ c ∧ c < (first.length : Int)) := by
    apply List.filter_congr
    intro c _
    simp
  have hne : (exportColumns.filter (fun c => 0 ≤ c ∧ c < (first.length : Int))).length ≠ 0 := by
    obtain ⟨c, hc, hr⟩ := hexp
    have : c ∈ exportColumns.filter (fun c => 0 ≤ c ∧ c < (first.length : Int)) := by
      simp [List.mem_filter, hc, hr]
    intro h0
    rw [List.length_eq_zero] at h0
    rw [h0] at this
    exact List.not_mem_nil _ this
  have hrows : (first :: rest).filter (fun row =>
        if strictEq pattern (Value.str "*") then true
        else strictEq (getIndex row columnIndex) pattern)
      = (first :: rest).filter (fun row =>
        strictEq pattern (Value.str "*") || strictEq (getIndex row columnIndex) pattern) := by
    apply List.filter_congr
    intro row _
    cases strictEq pattern (Value.str "*") <;> simp
  rw [hfilter, hrows] at hmain
  simp only [hne, if_false] at hmain
  refine ⟨hmain, ?_⟩
  intro out hout r hr
  rw [hmain] at hout
  cases hout
  obtain ⟨row, _, rfl⟩ := List.mem_map.mp hr
  simp

/-- The examples of the specification with a projection: export column 1
alone gives `[["1"]]`; the export list `[1, 0, 1, 5, -1]` keeps the order and
the duplicate and drops the two entries out of range. -/
theorem createSlice_projection_witness :
    createSlice (tableValue [[Value.str "h1", Value.str "h2"], [Value.str "a", Value.str "1"],
        [Value.str "b", Value.str "2"]]) 0 (Value.str "a") [1]
      = Except.ok [[Value.str "1"]] ∧
    createSlice (tableValue [[Value.str "h1", Value.str "h2"], [Value.str "a", Value.str "1"],
        [Value.str "b", Value.str "2"]]) 0 (Value.str "b") [1, 0, 1, 5, -1]
      = Except.ok [[Value.str "2", Value.str "b", Value.str "2"]] :=
  ⟨(createSlice_projection [Value.str "h1", Value.str "h2"]
      [[Value.str "a", Value.str "1"], [Value.str "b", Value.str "2"]] 0 (Value.str "a") [1]
      (by decide) (by decide) ⟨1, by decide, by decide⟩).1,
   (createSlice_projection [Value.str "h1", Value.str "h2"]
      [[Value.str "a", Value.str "1"], [Value.str "b", Value.str "2"]] 0 (Value.str "b")
      [1, 0, 1, 5, -1] (by decide) (by decide) ⟨1, by decide, by decide⟩).1⟩

/-- C7: on a table whose rows all have length `w`, with an in-bounds column
index and no in-range export column (in particular `exportColumns = []`),
`createSlice` returns rows of the input, unchanged, each still of length `w`. -/
theorem createSlice_keeps_width (first : List Value) (rest : List (List Value))
    (columnIndex : Int) (pattern : Value) (exportColumns : List Int) (w : Nat)
    (hw : ∀ r ∈ first :: rest, r.length = w)
    (hlo : 0 ≤ columnIndex) (hhi : columnIndex < first.length)
    (hexp : ∀ c ∈ exportColumns, ¬ (0 ≤ c ∧ c < (first.length : Int))) :
    ∃ out, createSlice (tableValue (first :: rest)) columnIndex pattern exportColumns
        = Except.ok out ∧
      ∀ r ∈ out, r ∈ first :: rest ∧ r.length = w := by
  have hall := filter_out_of_range exportColumns first.length hexp
  have hmain := createSlice_in_bounds first rest columnIndex pattern exportColumns hlo hhi
  rw [hall] at hmain
  simp only [List.length_nil, if_true, List.map_id'] at hmain
  refine ⟨_, hmain, ?_⟩
  intro r hr
  have hmem := (List.mem_filter.mp hr).1
  exact ⟨hmem, hw r hmem⟩

/-- A table of width 2 sliced on the pattern `"a"` with no export column, and
with an export column out of range: the result exists and its rows have
length 2. -/
theorem createSlice_keeps_width_witness :
    (∃ out, createSlice (tableValue [[Value.str "h1", Value.str "h2"],
          [Value.str "a", Value.str "1"]]) 0 (Value.str "a") [] = Except.ok out ∧
        ∀ r ∈ out, r ∈ [[Value.str "h1", Value.str "h2"], [Value.str "a", Value.str "1"]] ∧
          r.length = 2) ∧
    (∃ out, createSlice (tableValue [[Value.str "h1", Value.str "h2"],
          [Value.str "a", Value.str "1"]]) 1 (Value.str "*") [2, -3] = Except.ok out ∧
        ∀ r ∈ out, r ∈ [[Value.str "h1", Value.str "h2"], [Value.str "a", Value.str "1"]] ∧
          r.length = 2) :=
  ⟨createSlice_keeps_width [Value.str "h1", Value.str "h2"] [[Value.str "a", Value.str "1"]] 0
      (Value.str "a") [] 2 (by simp) (by decide) (by decide) (by simp),
   createSlice_keeps_width [Value.str "h1", Value.str "h2"] [[Value.str "a", Value.str "1"]] 1
      (Value.str "*") [2, -3] 2 (by simp) (by decide) (by decide) (by simp)⟩

/-- C8: on a non-empty table whose rows are all sequences, a column index that
is negative or at least the length of the first row makes `createSlice` return
the empty table, whatever the pattern and the export columns are. -/
theorem createSlice_column_out_of_bounds (first : List Value) (rest : List (List Value))
    (columnIndex : Int) (pattern : Value) (exportColumns : List Int)
    (h : columnIndex < 0 ∨ (first.length : Int) ≤ columnIndex) :
    createSlice (tableValue (first :: rest)) columnIndex pattern exportColumns = Except.ok [] := by
  simp only [createSlice, asTable_tableValue]
  rcases h with h | h
  · simp [h]
  · have h2 : columnIndex ≥ (first.length : Int) := h
    by_cases h1 : columnIndex < 0
    · simp [h1]
    · simp [h1, h2]

/-- On a table of width 2 the column indices `2` and `-1` give the empty
table, also with the pattern `"*"`. -/
theorem createSlice_column_out_of_bounds_witness :
    createSlice (tableValue [[Value.str "h1", Value.str "h2"], [Value.str "a", Value.str "1"]])
        2 (Value.str "*") [0] = Except.ok [] ∧
    createSlice (tableValue [[Value.str "h1", Value.str "h2"], [Value.str "a", Value.str "1"]])
        (-1) (Value.str "*") [] = Except.ok [] :=
  ⟨createSlice_column_out_of_bounds [Value.str "h1", Value.str "h2"]
      [[Value.str "a", Value.str "1"]] 2 (Value.str "*") [0] (Or.inr (by decide)),
   createSlice_column_out_of_bounds [Value.str "h1", Value.str "h2"]
      [[Value.str "a", Value.str "1"]] (-1) (Value.str "*") [] (Or.inl (by decide))⟩

/-! ## Claims on `convertToNumber` -/

/-- C9 fails on the code: the test is `isNaN`, that is `Number`, and the stored
value is `parseFloat`.  The empty string passes the test (`Number("")` is `+0`)
and the cell becomes `NaN`; `0x10` passes (`Number` gives 16) and the cell
becomes `0`.  Both conversions are counted. -/
theorem convertToNumber_stores_parseFloat :
    convertToNumber [[Value.str "h"], [Value.str ""]] 0
      = ([[Value.str "h"], [Value.num JSNumber.nan]], 1) ∧
    (Value.str "").toNumber = JSNumber.fin false 0 0 ∧
    convertToNumber [[Value.str "h"], [Value.str "0x10"]] 0
      = ([[Value.str "h"], [Value.num (JSNumber.fin false 0 0)]], 1) ∧
    (Value.str "0x10").toNumber = roundToDouble false 16 1 ∧
    roundToDouble false 16 1 ≠ JSNumber.fin false 0 0 := by
  decide!

theorem convertRows_rows (col : Int) (rows : List (List Value)) (n : Nat) :
    (convertRows col rows n).1 = rows.map (convertRow col) := by
  induction rows generalizing n with
  | nil => rfl
  | cons row rest ih =>
    simp only [convertRows, List.map_cons, convertRow, looseNumeric]
    split
    · rw [ih]
    · rw [ih]

theorem convertToNumber_rows (header : List Value) (rest : List (List Value)) (col : Int) :
    (convertToNumber (header :: rest) col).1 = header :: rest.map (convertRow col) := by
  simp only [convertToNumber, convertRows_rows]

theorem getIndex_string_range (row : List Value) (col : Int)
    (h : (getIndex row col).isString = true) : 0 ≤ col ∧ col.toNat < row.length := by
  unfold getIndex at h
  by_cases hc : 0 ≤ col
  · refine ⟨hc, ?_⟩
    rw [if_pos hc] at h
    by_contra hlt
    rw [List.getD_eq_default _ _ (not_lt.mp hlt)] at h
    exact Bool.noConfusion h
  · rw [if_neg hc] at h
    exact Bool.noConfusion h

theorem getIndex_set_self (row : List Value) (col : Int) (v : Value)
    (h : 0 ≤ col ∧ col.toNat < row.length) : getIndex (row.set col.toNat v) col = v := by
  simp [getIndex, h.1, h.2]

theorem looseNumeric_isString {v : Value} (h : looseNumeric v = true) : v.isString = true := by
  simp only [looseNumeric, Bool.and_eq_true] at h
  exact h.1

theorem convertRow_settled (col : Int) (row : List Value) :
    looseNumeric (getIndex (convertRow col row) col) = false := by
  unfold convertRow
  split
  · rename_i h
    rw [getIndex_set_self row col _ (getIndex_string_range row col (looseNumeric_isString h))]
    rfl
  · rename_i h
    simpa using h

theorem convertRows_settled (col : Int) (rows : List (List Value)) (n : Nat)
    (h : ∀ row ∈ rows, looseNumeric (getIndex row col) = false) :
    convertRows col rows n = (rows, n) := by
  induction rows generalizing n with
  | nil => rfl
  | cons row rest ih =>
    have hrow : ((getIndex row col).isString && !(getIndex row col).toNumber.isNaN) = false :=
      h row (List.mem_cons_self _ _)
    simp only [convertRows, hrow]
    rw [ih n (fun r hr => h r (List.mem_cons_of_mem _ hr))]
    simp

/-- C12: a second call of `convertToNumber` on the table a first call left
returns 0 and leaves that table unchanged. -/
theorem convertToNumber_twice (dataframe : List (List Value)) (col : Int) :
    convertToNumber (convertToNumber dataframe col).1 col
      = ((convertToNumber dataframe col).1, 0) := by
  cases dataframe with
  | nil => rfl
  | cons header rest =>
    rw [convertToNumber_rows]
    simp only [convertToNumber]
    rw [convertRows_settled]
    intro row hrow
    obtain ⟨r, _, rfl⟩ := List.mem_map.mp hrow
    exact convertRow_settled col r


/-! ## Rounding -/

theorem roundToDouble_eq_roundFrom (neg : Bool) (n d : Nat) (hn : n ≠ 0) :
    roundToDouble neg n d = roundFrom neg (n * 2 ^ 1074) d := by
  unfold roundToDouble roundFrom roundedSignificand
  rw [if_neg hn]

theorem binExp_eq (n d : Nat) :
    binExp n d = [2048, 1024, 512, 256, 128, 64, 32, 16, 8, 4, 2, 1].foldl (binStep n d) 0 := by
  have h : (fun e b => if d * 2 ^ (e + b + 52) ≤ n then e + b else e) = binStep n d := by
    funext e b
    rfl
  unfold binExp
  rw [h]

theorem foldl_binStep_lower (n d : Nat) (bs : List Nat) (e : Nat)
    (h : e = 0 ∨ d * 2 ^ (e + 52) ≤ n) :
    bs.foldl (binStep n d) e = 0 ∨ d * 2 ^ (bs.foldl (binStep n d) e + 52) ≤ n := by
  induction bs generalizing e with
  | nil => exact h
  | cons b bs ih =>
    simp only [List.foldl_cons]
    refine ih (binStep n d e b) ?_
    unfold binStep
    split
    · rename_i hc
      exact Or.inr hc
    · exact h

theorem binExp_lower (n d : Nat) : binExp n d = 0 ∨ d * 2 ^ (binExp n d + 52) ≤ n := by
  rw [binExp_eq]
  exact foldl_binStep_lower n d _ 0 (Or.inl rfl)

theorem pow_bound_mono (n d : Nat) {e e' : Nat} (h : e ≤ e') (hp : n < d * 2 ^ (e + 53)) :
    n < d * 2 ^ (e' + 53) :=
  lt_of_lt_of_le hp (Nat.mul_le_mul_left d (Nat.pow_le_pow_right (by decide) (by omega)))

theorem foldl_binStep_upper (n d : Nat) (bs : List Nat) (e : Nat) (hg : goodBits bs)
    (h : n < d * 2 ^ (e + bs.sum + 53)) :
    n < d * 2 ^ (bs.foldl (binStep n d) e + 53) := by
  induction bs generalizing e with
  | nil => simpa using h
  | cons b bs ih =>
    obtain ⟨h1, h2, h3⟩ := hg
    simp only [List.foldl_cons]
    refine ih (binStep n d e b) h3 ?_
    unfold binStep
    split
    · have : e + b + bs.sum = e + (b :: bs).sum := by simp [List.sum_cons]; omega
      rw [this]
      exact h
    · rename_i hc
      have hlt : n < d * 2 ^ (e + (b - 1) + 53) := by
        have : e + (b - 1) + 53 = e + b + 52 := by omega
        rw [this]
        exact not_le.mp hc
      exact pow_bound_mono n d (by omega) hlt

theorem foldl_binStep_sat (n d : Nat) (bs : List Nat) (e : Nat) (hg : goodBits bs)
    (h : ¬ n < d * 2 ^ (e + bs.sum + 53)) :
    bs.foldl (binStep n d) e = e + bs.sum := by
  induction bs generalizing e with
  | nil => simp
  | cons b bs ih =>
    obtain ⟨h1, h2, h3⟩ := hg
    have hc : d * 2 ^ (e + b + 52) ≤ n := by
      by_contra hc
      apply h
      have hlt : n < d * 2 ^ (e + (b - 1) + 53) := by
        have : e + (b - 1) + 53 = e + b + 52 := by omega
        rw [this]
        exact not_le.mp hc
      refine pow_bound_mono n d ?_ hlt
      simp only [List.sum_cons]
      omega
    simp only [List.foldl_cons, binStep, if_pos hc]
    rw [ih (e + b) h3]
    · simp only [List.sum_cons]; omega
    · have : e + b + bs.sum = e + (b :: bs).sum := by simp only [List.sum_cons]; omega
      rw [this]
      exact h

theorem binExp_upper (n d : Nat) : n < d * 2 ^ (binExp n d + 53) ∨ 4095 ≤ binExp n d := by
  have hg : goodBits [2048, 1024, 512, 256, 128, 64, 32, 16, 8, 4, 2, 1] := by
    simp [goodBits]
  by_cases h : n < d * 2 ^ (0 + [2048, 1024, 512, 256, 128, 64, 32, 16, 8, 4, 2, 1].sum + 53)
  · exact Or.inl (foldl_binStep_upper n d _ 0 hg h)
  · right
    rw [binExp_eq, foldl_binStep_sat n d _ 0 hg h]
    simp


theorem roundedSignificand_ge (bigN den : Nat) : bigN / den ≤ roundedSignificand bigN den := by
  unfold roundedSignificand
  split
  · exact le_refl _
  · split <;> omega

theorem roundedSignificand_le (bigN den : Nat) : roundedSignificand bigN den ≤ bigN / den + 1 := by
  unfold roundedSignificand
  split
  · omega
  · split <;> omega

theorem roundedSignificand_exact (bigN den : Nat) (hden : 0 < den) (h : bigN % den = 0) :
    roundedSignificand bigN den = bigN / den := by
  unfold roundedSignificand
  rw [h]
  simp [hden]

/-- The magnitude `m * 2 ^ e` that `roundFrom` produces, before it is checked
against the largest exponent. -/
theorem roundFrom_cases (neg : Bool) (bigN d : Nat) :
    (roundFrom neg bigN d = JSNumber.inf neg ∧
      (maxExp < binExp bigN d ∨
        (roundedSignificand bigN (d * 2 ^ binExp bigN d) = 2 ^ 53 ∧
          maxExp < binExp bigN d + 1))) ∨
    ∃ m e, roundFrom neg bigN d = JSNumber.fin neg m e ∧ e ≤ maxExp ∧ binExp bigN d ≤ e ∧
      m * 2 ^ e = roundedSignificand bigN (d * 2 ^ binExp bigN d) * 2 ^ binExp bigN d ∧
      (m = 2 ^ 52 ∨ (m = roundedSignificand bigN (d * 2 ^ binExp bigN d) ∧
        m ≠ 2 ^ 53 ∧ e = binExp bigN d)) := by
  unfold roundFrom
  by_cases hm : roundedSignificand bigN (d * 2 ^ binExp bigN d) = 2 ^ 53
  · simp only [hm, if_true]
    by_cases hx : maxExp < binExp bigN d + 1
    · left
      rw [if_pos hx]
      exact ⟨rfl, Or.inr ⟨trivial, hx⟩⟩
    · right
      rw [if_neg hx]
      refine ⟨2 ^ 52, binExp bigN d + 1, rfl, not_lt.mp hx, Nat.le_succ _, ?_, Or.inl rfl⟩
      rw [pow_succ]
      ring
  · simp only [hm, if_false]
    by_cases hx : maxExp < binExp bigN d
    · left
      rw [if_pos hx]
      exact ⟨rfl, Or.inl hx⟩
    · right
      rw [if_neg hx]
      exact ⟨_, _, rfl, not_lt.mp hx, le_refl _, rfl, Or.inr ⟨rfl, hm, rfl⟩⟩

/-- The quotient at the exponent `binExp` is at least `2 ^ 52` unless the
exponent is 0. -/
theorem quotient_normal (bigN d : Nat) (hd : 0 < d) (he : binExp bigN d ≠ 0) :
    2 ^ 52 ≤ bigN / (d * 2 ^ binExp bigN d) := by
  rcases binExp_lower bigN d with h | h
  · exact absurd h he
  · rw [Nat.le_div_iff_mul_le (Nat.mul_pos hd (Nat.two_pow_pos _))]
    calc 2 ^ 52 * (d * 2 ^ binExp bigN d) = d * 2 ^ (binExp bigN d + 52) := by
          rw [pow_add]; ring
      _ ≤ bigN := h

/-- Rounding does not go below a representable magnitude that is below the
fraction. -/
theorem roundFrom_ge (neg : Bool) (bigN d mf ef : Nat) (hmf : mf < 2 ^ 53) (hd : 0 < d)
    (h : mf * 2 ^ ef * d ≤ bigN) :
    roundFrom neg bigN d = JSNumber.inf neg ∨
    ∃ m e, roundFrom neg bigN d = JSNumber.fin neg m e ∧ mf * 2 ^ ef ≤ m * 2 ^ e := by
  have hden : 0 < d * 2 ^ binExp bigN d := Nat.mul_pos hd (Nat.two_pow_pos _)
  have hq : mf * 2 ^ ef ≤ bigN / (d * 2 ^ binExp bigN d) * 2 ^ binExp bigN d := by
    by_cases hle : binExp bigN d ≤ ef
    · obtain ⟨k, hk⟩ := Nat.exists_eq_add_of_le hle
      have h1 : mf * 2 ^ k ≤ bigN / (d * 2 ^ binExp bigN d) := by
        rw [Nat.le_div_iff_mul_le hden]
        calc mf * 2 ^ k * (d * 2 ^ binExp bigN d) = mf * 2 ^ ef * d := by
              rw [hk, pow_add]; ring
          _ ≤ bigN := h
      calc mf * 2 ^ ef = mf * 2 ^ k * 2 ^ binExp bigN d := by rw [hk, pow_add]; ring
        _ ≤ _ := Nat.mul_le_mul_right _ h1
    · have hne : binExp bigN d ≠ 0 := by omega
      have h1 := quotient_normal bigN d hd hne
      obtain ⟨k, hk⟩ := Nat.exists_eq_add_of_lt (not_le.mp hle)
      calc mf * 2 ^ ef ≤ 2 ^ 53 * 2 ^ ef := Nat.mul_le_mul_right _ (Nat.le_of_lt hmf)
        _ = 2 ^ 52 * 2 ^ (ef + 1) := by rw [pow_succ]; ring
        _ ≤ 2 ^ 52 * 2 ^ binExp bigN d :=
            Nat.mul_le_mul_left _ (Nat.pow_le_pow_right (by decide) (by omega))
        _ ≤ _ := Nat.mul_le_mul_right _ h1
  have hm : mf * 2 ^ ef
      ≤ roundedSignificand bigN (d * 2 ^ binExp bigN d) * 2 ^ binExp bigN d :=
    le_trans hq (Nat.mul_le_mul_right _ (roundedSignificand_ge _ _))
  rcases roundFrom_cases neg bigN d with ⟨h1, _⟩ | ⟨m, e, h1, _, _, h2, _⟩
  · exact Or.inl h1
  · exact Or.inr ⟨m, e, h1, by rw [h2]; exact hm⟩

/-- Rounding does not go above a representable magnitude that is above the
fraction, and it overflows only if that magnitude is beyond the largest
exponent. -/
theorem roundFrom_le (neg : Bool) (bigN d mf ef : Nat) (hmf : mf < 2 ^ 53) (hd : 0 < d)
    (h : bigN ≤ mf * 2 ^ ef * d) :
    (roundFrom neg bigN d = JSNumber.inf neg ∧ maxExp < ef) ∨
    ∃ m e, roundFrom neg bigN d = JSNumber.fin neg m e ∧ m * 2 ^ e ≤ mf * 2 ^ ef := by
  have hden : 0 < d * 2 ^ binExp bigN d := Nat.mul_pos hd (Nat.two_pow_pos _)
  have hle : binExp bigN d ≤ ef := by
    rcases binExp_lower bigN d with h0 | h0
    · omega
    · have h1 : d * 2 ^ (binExp bigN d + 52) < d * 2 ^ (ef + 53) := by
        calc d * 2 ^ (binExp bigN d + 52) ≤ bigN := h0
          _ ≤ mf * 2 ^ ef * d := h
          _ < 2 ^ 53 * 2 ^ ef * d :=
              Nat.mul_lt_mul_of_pos_right
                (Nat.mul_lt_mul_of_pos_right hmf (Nat.two_pow_pos _)) hd
          _ = d * 2 ^ (ef + 53) := by rw [pow_add]; ring
      have h2 : 2 ^ (binExp bigN d + 52) < 2 ^ (ef + 53) := Nat.lt_of_mul_lt_mul_left h1
      have h3 := (Nat.pow_lt_pow_iff_right (by decide : 1 < 2)).mp h2
      omega
  obtain ⟨k, hk⟩ := Nat.exists_eq_add_of_le hle
  have hf : mf * 2 ^ ef = mf * 2 ^ k * 2 ^ binExp bigN d := by rw [hk, pow_add]; ring
  have hbig : bigN ≤ (d * 2 ^ binExp bigN d) * (mf * 2 ^ k) := by
    calc bigN ≤ mf * 2 ^ ef * d := h
      _ = _ := by rw [hf]; ring
  have hq : bigN / (d * 2 ^ binExp bigN d) ≤ mf * 2 ^ k := Nat.div_le_of_le_mul hbig
  have hm : roundedSignificand bigN (d * 2 ^ binExp bigN d) ≤ mf * 2 ^ k := by
    rcases Nat.lt_or_ge (bigN / (d * 2 ^ binExp bigN d)) (mf * 2 ^ k) with hlt | hge
    · exact le_trans (roundedSignificand_le _ _) hlt
    · have heq : bigN / (d * 2 ^ binExp bigN d) = mf * 2 ^ k := le_antisymm hq hge
      have hmod : bigN % (d * 2 ^ binExp bigN d) = 0 := by
        have hdm := Nat.div_add_mod bigN (d * 2 ^ binExp bigN d)
        rw [heq] at hdm
        omega
      rw [roundedSignificand_exact _ _ hden hmod, heq]
  have hmag : roundedSignificand bigN (d * 2 ^ binExp bigN d) * 2 ^ binExp bigN d
      ≤ mf * 2 ^ ef := by
    rw [hf]
    exact Nat.mul_le_mul_right _ hm
  rcases roundFrom_cases neg bigN d with ⟨h1, hx⟩ | ⟨m, e, h1, _, _, h2, _⟩
  · left
    refine ⟨h1, ?_⟩
    rcases hx with hx | ⟨hx1, hx2⟩
    · omega
    · rw [hx1] at hmag
      have h4 : 2 ^ 53 * 2 ^ binExp bigN d < 2 ^ 53 * 2 ^ ef :=
        lt_of_le_of_lt hmag (Nat.mul_lt_mul_of_pos_right hmf (Nat.two_pow_pos _))
      have h5 : 2 ^ binExp bigN d < 2 ^ ef := Nat.lt_of_mul_lt_mul_left h4
      have h6 := (Nat.pow_lt_pow_iff_right (by decide : 1 < 2)).mp h5
      omega
  · exact Or.inr ⟨m, e, h1, by rw [h2]; exact hmag⟩

/-- The finite results of rounding are binary64 values. -/
theorem roundFrom_isDouble (neg : Bool) (bigN d : Nat) (hd : 0 < d) :
    (roundFrom neg bigN d).isDouble = true := by
  have hden : 0 < d * 2 ^ binExp bigN d := Nat.mul_pos hd (Nat.two_pow_pos _)
  rcases roundFrom_cases neg bigN d with ⟨h1, _⟩ | ⟨m, e, h1, h2, h3, _, h5⟩
  · rw [h1]; rfl
  · rw [h1]
    simp only [JSNumber.isDouble, Bool.and_eq_true, decide_eq_true_eq]
    refine ⟨?_, h2⟩
    rcases h5 with h5 | ⟨h5, h6, h7⟩
    · rw [h5]; decide
    · rcases binExp_upper bigN d with hu | hu
      · have hq : bigN / (d * 2 ^ binExp bigN d) < 2 ^ 53 := by
          rw [Nat.div_lt_iff_lt_mul hden]
          calc bigN < d * 2 ^ (binExp bigN d + 53) := hu
            _ = 2 ^ 53 * (d * 2 ^ binExp bigN d) := by rw [pow_add]; ring
        have := roundedSignificand_le bigN (d * 2 ^ binExp bigN d)
        rw [← h5] at this
        omega
      · have : maxExp = 2045 := rfl
        omega

theorem roundToDouble_isDouble (neg : Bool) (n d : Nat) (hd : 0 < d) :
    (roundToDouble neg n d).isDouble = true := by
  by_cases hn : n = 0
  · subst hn
    rfl
  · rw [roundToDouble_eq_roundFrom neg n d hn]
    exact roundFrom_isDouble neg _ d hd


/-! ## Arithmetic -/

theorem toUnits_neg (x : JSNumber) : x.neg.toUnits = -x.toUnits := by
  cases x with
  | nan => rfl
  | inf s => rfl
  | fin s m e => cases s <;> simp [JSNumber.neg, JSNumber.toUnits]

theorem toUnits_natAbs (s : Bool) (m e : Nat) :
    (JSNumber.fin s m e).toUnits.natAbs = m * 2 ^ e := by
  cases s
  · simp only [JSNumber.toUnits, Bool.false_eq_true, if_false, Int.natAbs_ofNat]
  · simp only [JSNumber.toUnits, if_true, Int.natAbs_neg, Int.natAbs_ofNat]

/-- Rounding a non-zero whole number of units stays above a representable
magnitude below it. -/
theorem roundUnits_ge (s : Bool) (n mf ef : Nat) (hn : n ≠ 0) (hmf : mf < 2 ^ 53)
    (h : mf * 2 ^ ef ≤ n) :
    roundToDouble s n (2 ^ 1074) = JSNumber.inf s ∨
    ∃ m e, roundToDouble s n (2 ^ 1074) = JSNumber.fin s m e ∧ mf * 2 ^ ef ≤ m * 2 ^ e := by
  rw [roundToDouble_eq_roundFrom s n _ hn]
  exact roundFrom_ge s (n * 2 ^ 1074) (2 ^ 1074) mf ef hmf (by positivity)
    (Nat.mul_le_mul_right (2 ^ 1074) h)

/-- Rounding a non-zero whole number of units stays below a representable
magnitude above it. -/
theorem roundUnits_le (s : Bool) (n mf ef : Nat) (hn : n ≠ 0) (hmf : mf < 2 ^ 53)
    (h : n ≤ mf * 2 ^ ef) :
    (roundToDouble s n (2 ^ 1074) = JSNumber.inf s ∧ maxExp < ef) ∨
    ∃ m e, roundToDouble s n (2 ^ 1074) = JSNumber.fin s m e ∧ m * 2 ^ e ≤ mf * 2 ^ ef := by
  rw [roundToDouble_eq_roundFrom s n _ hn]
  exact roundFrom_le s (n * 2 ^ 1074) (2 ^ 1074) mf ef hmf (by positivity)
    (Nat.mul_le_mul_right (2 ^ 1074) h)

/-- A non-zero whole number of units does not round to zero. -/
theorem roundUnits_pos (s : Bool) (n : Nat) (hn : n ≠ 0) :
    roundToDouble s n (2 ^ 1074) = JSNumber.inf s ∨
    ∃ m e, roundToDouble s n (2 ^ 1074) = JSNumber.fin s m e ∧ m ≠ 0 := by
  rcases roundUnits_ge s n 1 0 hn (by decide) (by simpa using Nat.pos_of_ne_zero hn) with h | h
  · exact Or.inl h
  · obtain ⟨m, e, h1, h2⟩ := h
    refine Or.inr ⟨m, e, h1, ?_⟩
    intro h0
    rw [h0] at h2
    simp at h2

/-- The comparator `a - b` is positive exactly when `a` is the larger number. -/
theorem sub_isPositive (s1 : Bool) (m1 e1 : Nat) (s2 : Bool) (m2 e2 : Nat) :
    ((JSNumber.fin s1 m1 e1).sub (JSNumber.fin s2 m2 e2)).isPositive = true ↔
      (JSNumber.fin s2 m2 e2).toUnits < (JSNumber.fin s1 m1 e1).toUnits := by
  have hneg : (JSNumber.fin s2 m2 e2).neg = JSNumber.fin (!s2) m2 e2 := rfl
  have hu := toUnits_neg (JSNumber.fin s2 m2 e2)
  rw [hneg] at hu
  simp only [JSNumber.sub, hneg, JSNumber.add]
  rw [hu]
  generalize (JSNumber.fin s1 m1 e1).toUnits = a
  generalize (JSNumber.fin s2 m2 e2).toUnits = b
  by_cases h0 : a + -b = 0
  · rw [if_pos h0]
    simp only [JSNumber.isPositive]
    constructor
    · intro h; cases s1 <;> cases s2 <;> simp at h
    · intro h; omega
  · rw [if_neg h0]
    have hn : (a + -b).natAbs ≠ 0 := by omega
    by_cases hs : a + -b < 0
    · have hd : decide (a + -b < 0) = true := by simpa using hs
      rw [hd]
      constructor
      · intro h
        rcases roundUnits_pos true _ hn with h1 | ⟨m, e, h1, _⟩
        · rw [h1] at h; exact Bool.noConfusion h
        · rw [h1] at h; exact Bool.noConfusion h
      · intro h; omega
    · have hd : decide (a + -b < 0) = false := by simpa using hs
      rw [hd]
      constructor
      · intro _; omega
      · intro _
        rcases roundUnits_pos false _ hn with h1 | ⟨m, e, h1, h2⟩
        · rw [h1]; rfl
        · rw [h1]; simp [JSNumber.isPositive, h2]

theorem compareFn_iff_le {a b : JSNumber} (ha : a.isFinite = true) (hb : b.isFinite = true) :
    compareFn a b ↔ a.le b := by
  cases a with
  | nan => exact Bool.noConfusion ha
  | inf _ => exact Bool.noConfusion ha
  | fin s1 m1 e1 =>
    cases b with
    | nan => exact Bool.noConfusion hb
    | inf _ => exact Bool.noConfusion hb
    | fin s2 m2 e2 =>
      unfold compareFn JSNumber.le
      rw [← Bool.not_eq_true, sub_isPositive]
      exact not_lt

/-! ## Sorting -/

instance : IsTotal JSNumber JSNumber.le := ⟨fun a b => le_total a.toUnits b.toUnits⟩

instance : IsTrans JSNumber JSNumber.le :=
  ⟨fun a b c (h1 : a.toUnits ≤ b.toUnits) (h2 : b.toUnits ≤ c.toUnits) => le_trans h1 h2⟩

theorem orderedInsert_congr {α : Type} (r r' : α → α → Prop) [DecidableRel r] [DecidableRel r']
    (a : α) (l : List α) (h : ∀ b ∈ l, (r a b ↔ r' a b)) :
    l.orderedInsert r a = l.orderedInsert r' a := by
  induction l with
  | nil => rfl
  | cons b l ih =>
    have hb := h b (List.mem_cons_self _ _)
    have ih' := ih (fun c hc => h c (List.mem_cons_of_mem _ hc))
    by_cases hr : r a b
    · simp [List.orderedInsert, hr, hb.mp hr]
    · have hr' : ¬ r' a b := fun x => hr (hb.mpr x)
      simp [List.orderedInsert, hr, hr', ih']

theorem insertionSort_congr {α : Type} (r r' : α → α → Prop) [DecidableRel r] [DecidableRel r']
    (l : List α) (h : ∀ a ∈ l, ∀ b ∈ l, (r a b ↔ r' a b)) :
    l.insertionSort r = l.insertionSort r' := by
  induction l with
  | nil => rfl
  | cons a l ih =>
    have ih' := ih (fun x hx y hy => h x (List.mem_cons_of_mem _ hx) y (List.mem_cons_of_mem _ hy))
    simp only [List.insertionSort, ih']
    apply orderedInsert_congr
    intro b hb
    have hb' : b ∈ l := (List.mem_insertionSort r').mp hb
    exact h a (List.mem_cons_self _ _) b (List.mem_cons_of_mem _ hb')

/-- On finite numbers the sort by the comparator `a - b` is the stable sort by
numeric value. -/
theorem sortNumbers_eq (l : List JSNumber) (h : ∀ x ∈ l, x.isFinite = true) :
    sortNumbers l = l.insertionSort JSNumber.le :=
  insertionSort_congr compareFn JSNumber.le l
    (fun a ha b hb => compareFn_iff_le (h a ha) (h b hb))

theorem sortNumbers_perm (l : List JSNumber) : (sortNumbers l).Perm l :=
  List.perm_insertionSort compareFn l

theorem sortNumbers_sorted (l : List JSNumber) (h : ∀ x ∈ l, x.isFinite = true) :
    (sortNumbers l).Sorted JSNumber.le := by
  rw [sortNumbers_eq l h]
  exact List.sorted_insertionSort JSNumber.le l

theorem validNumber_isFinite {v : Value} (h : validNumber v = true) :
    v.toNumber.isFinite = true := by
  unfold validNumber at h
  split at h
  · exact Bool.noConfusion h
  · simp only [Bool.and_eq_true] at h
    exact h.1.2

theorem accepted_isFinite (xs : List Value) :
    ∀ x ∈ (xs.filter validNumber).map Value.toNumber, x.isFinite = true := by
  intro x hx
  obtain ⟨v, hv, rfl⟩ := List.mem_map.mp hx
  exact validNumber_isFinite (List.mem_filter.mp hv).2


/-! ## Claims on the aggregates -/

theorem foldl_filter_map {α β γ : Type} (p : α → Bool) (f : α → β) (g : γ → β → γ)
    (xs : List α) (z : γ) :
    xs.foldl (fun acc x => if p x then g acc (f x) else acc) z
      = ((xs.filter p).map f).foldl g z := by
  induction xs generalizing z with
  | nil => rfl
  | cons x xs ih =>
    simp only [List.foldl_cons, List.filter_cons]
    cases hp : p x
    · simp [ih]
    · simp [ih]

theorem not_isArray_arr {v : Value} (h : v.isArray = false) (xs : List Value) :
    v ≠ Value.arr xs := by
  intro e
  rw [e] at h
  exact Bool.noConfusion h

theorem findTotal_flat (xs : List Value) (h : xs.any Value.isArray = false) :
    findTotal (Value.arr xs)
      = ((xs.filter validNumber).map parseFloat).foldl JSNumber.add (JSNumber.fin false 0 0) := by
  simp only [findTotal, h]
  exact foldl_filter_map validNumber parseFloat JSNumber.add xs _

/-- C13: `findTotal` returns 0 for a value that is not an array and for an
array with an array among its elements; for every flat dataset it returns the
binary64 sum, added in dataset order from `+0`, of the numeric values
(`parseFloat`) of exactly the elements `validNumber` accepts, hence 0 when none
is accepted.  In particular `findTotal(["1","2","x","3"])` is 6 and
`findTotal([["1"],["2"]])` is 0. -/
theorem findTotal_sum :
    (∀ v : Value, v.isArray = false → findTotal v = JSNumber.fin false 0 0) ∧
    (∀ xs : List Value, xs.any Value.isArray = true →
      findTotal (Value.arr xs) = JSNumber.fin false 0 0) ∧
    (∀ xs : List Value, xs.any Value.isArray = false →
      findTotal (Value.arr xs)
        = ((xs.filter validNumber).map parseFloat).foldl JSNumber.add (JSNumber.fin false 0 0)) ∧
    (∀ xs : List Value, xs.any Value.isArray = false → (∀ x ∈ xs, validNumber x = false) →
      findTotal (Value.arr xs) = JSNumber.fin false 0 0) ∧
    findTotal (Value.arr [Value.str "1", Value.str "2", Value.str "x", Value.str "3"])
      = JSNumber.ofNat 6 ∧
    findTotal (Value.arr [Value.arr [Value.str "1"], Value.arr [Value.str "2"]])
      = JSNumber.fin false 0 0 := by
  refine ⟨?_, ?_, findTotal_flat, ?_, by decide!, by decide!⟩
  · intro v h
    cases v <;> first | rfl | exact Bool.noConfusion h
  · intro xs h
    simp [findTotal, h]
  · intro xs h hnone
    rw [findTotal_flat xs h, List.filter_eq_nil_iff.mpr (fun x hx => by simp [hnone x hx])]
    rfl

/-- The cases of C13 on concrete datasets: a number is not a sequence, a
nested dataset, and a dataset without accepted element. -/
theorem findTotal_sum_witness :
    findTotal (Value.num (JSNumber.ofNat 5)) = JSNumber.fin false 0 0 ∧
    findTotal (Value.arr [Value.str "1", Value.arr []]) = JSNumber.fin false 0 0 ∧
    findTotal (Value.arr [Value.str "0.5", Value.str "x", Value.str "0.25"])
      = (([Value.str "0.5", Value.str "x", Value.str "0.25"].filter validNumber).map
          parseFloat).foldl JSNumber.add (JSNumber.fin false 0 0) ∧
    findTotal (Value.arr [Value.str "x", Value.null]) = JSNumber.fin false 0 0 :=
  ⟨findTotal_sum.1 (Value.num (JSNumber.ofNat 5)) rfl,
   findTotal_sum.2.1 [Value.str "1", Value.arr []] rfl,
   findTotal_sum.2.2.1 [Value.str "0.5", Value.str "x", Value.str "0.25"] rfl,
   findTotal_sum.2.2.2.1 [Value.str "x", Value.null] rfl (by decide!)⟩

theorem meanLoop_eq (xs : List Value) :
    meanLoop xs = (((xs.filter validNumber).map parseFloat).foldl JSNumber.add
      (JSNumber.fin false 0 0), (xs.filter validNumber).length) := by
  unfold meanLoop
  have h : ∀ (l : List Value) (t : JSNumber) (c : Nat),
      l.foldl (fun acc value =>
        if validNumber value then (acc.1.add (parseFloat value), acc.2 + 1) else acc) (t, c)
      = (((l.filter validNumber).map parseFloat).foldl JSNumber.add t,
          c + (l.filter validNumber).length) := by
    intro l
    induction l with
    | nil => intro t c; rfl
    | cons x l ih =>
      intro t c
      simp only [List.foldl_cons, List.filter_cons]
      cases hp : validNumber x
      · simp [ih]
      · simp [ih]; omega
  rw [h xs _ 0]
  simp

/-- C14: `calculateMean` returns 0 for a value that is not an array and for a
nested dataset; for every flat dataset it returns the binary64 sum of the
numeric values of the accepted elements divided by the number of accepted
elements, and 0 when no element is accepted.  In particular
`calculateMean([])` is 0 and `calculateMean(["2","4","6"])` is 4. -/
theorem calculateMean_quotient :
    (∀ v : Value, v.isArray = false → calculateMean v = JSNumber.fin false 0 0) ∧
    (∀ xs : List Value, xs.any Value.isArray = true →
      calculateMean (Value.arr xs) = JSNumber.fin false 0 0) ∧
    (∀ xs : List Value, xs.any Value.isArray = false → (xs.filter validNumber).length ≠ 0 →
      calculateMean (Value.arr xs)
        = (((xs.filter validNumber).map parseFloat).foldl JSNumber.add
            (JSNumber.fin false 0 0)).div (JSNumber.ofNat (xs.filter validNumber).length)) ∧
    (∀ xs : List Value, xs.any Value.isArray = false → (xs.filter validNumber).length = 0 →
      calculateMean (Value.arr xs) = JSNumber.fin false 0 0) ∧
    calculateMean (Value.arr []) = JSNumber.fin false 0 0 ∧
    calculateMean (Value.arr [Value.str "2", Value.str "4", Value.str "6"])
      = JSNumber.ofNat 4 := by
  refine ⟨?_, ?_, ?_, ?_, by decide!, by decide!⟩
  · intro v h
    cases v <;> first | rfl | exact Bool.noConfusion h
  · intro xs h
    simp [calculateMean, h]
  · intro xs h hne
    simp only [calculateMean, h, meanLoop_eq]
    simp [Nat.pos_of_ne_zero hne]
  · intro xs h hz
    simp only [calculateMean, h, meanLoop_eq]
    simp [hz]

/-- The cases of C14 on concrete datasets; the element `x` is not counted in
the divisor. -/
theorem calculateMean_quotient_witness :
    calculateMean (Value.str "12") = JSNumber.fin false 0 0 ∧
    calculateMean (Value.arr [Value.str "1", Value.arr []]) = JSNumber.fin false 0 0 ∧
    calculateMean (Value.arr [Value.str "3", Value.str "x", Value.str "6"])
      = ((([Value.str "3", Value.str "x", Value.str "6"].filter validNumber).map
          parseFloat).foldl JSNumber.add (JSNumber.fin false 0 0)).div
          (JSNumber.ofNat ([Value.str "3", Value.str "x", Value.str "6"].filter
            validNumber).length) ∧
    calculateMean (Value.arr [Value.str "x"]) = JSNumber.fin false 0 0 :=
  ⟨calculateMean_quotient.1 (Value.str "12") rfl,
   calculateMean_quotient.2.1 [Value.str "1", Value.arr []] rfl,
   calculateMean_quotient.2.2.1 [Value.str "3", Value.str "x", Value.str "6"] rfl
     (by decide!),
   calculateMean_quotient.2.2.2.1 [Value.str "x"] rfl (by decide!)⟩

/-- C15: `calculateMedian` returns 0 for a value that is not an array and for
a nested dataset; for every flat dataset there is the list `vs` of the numeric
values of the accepted elements, rearranged in ascending numeric order, and
the result is 0 when `vs` is empty, the element at position `floor(n/2)` when
`n` is odd, and the sum of the elements at positions `n/2 - 1` and `n/2`
divided by 2 when `n` is even.  In particular
`calculateMedian(["3","1","2"])` is 2 and `calculateMedian(["1","2","3","4"])`
is 2.5. -/
theorem calculateMedian_middle :
    (∀ v : Value, v.isArray = false → calculateMedian v = JSNumber.fin false 0 0) ∧
    (∀ xs : List Value, xs.any Value.isArray = true →
      calculateMedian (Value.arr xs) = JSNumber.fin false 0 0) ∧
    (∀ xs : List Value, xs.any Value.isArray = false →
      ∃ vs : List JSNumber,
        vs.Perm ((xs.filter validNumber).map Value.toNumber) ∧ vs.Sorted JSNumber.le ∧
        (vs.length = 0 → calculateMedian (Value.arr xs) = JSNumber.fin false 0 0) ∧
        (vs.length % 2 = 1 →
          calculateMedian (Value.arr xs) = vs.getD (vs.length / 2) JSNumber.nan) ∧
        (vs.length ≠ 0 → vs.length % 2 = 0 →
          calculateMedian (Value.arr xs)
            = ((vs.getD (vs.length / 2 - 1) JSNumber.nan).add
                (vs.getD (vs.length / 2) JSNumber.nan)).div (JSNumber.ofNat 2))) ∧
    calculateMedian (Value.arr [Value.str "3", Value.str "1", Value.str "2"])
      = JSNumber.ofNat 2 ∧
    calculateMedian (Value.arr [Value.str "1", Value.str "2", Value.str "3", Value.str "4"])
      = stringToNumber "2.5" := by
  refine ⟨?_, ?_, ?_, by decide!, by decide!⟩
  · intro v h
    cases v <;> first | rfl | exact Bool.noConfusion h
  · intro xs h
    simp [calculateMedian, h]
  · intro xs h
    refine ⟨sortNumbers ((xs.filter validNumber).map Value.toNumber), sortNumbers_perm _,
      sortNumbers_sorted _ (accepted_isFinite xs), ?_, ?_, ?_⟩
    · intro h0
      simp [calculateMedian, h, h0]
    · intro h1
      have h0 : (sortNumbers ((xs.filter validNumber).map Value.toNumber)).length ≠ 0 := by
        omega
      simp only [calculateMedian, h]
      simp [h0, h1]
    · intro h0 h2
      simp only [calculateMedian, h]
      simp [h0, h2]

/-- The cases of C15 on concrete datasets. -/
theorem calculateMedian_middle_witness :
    calculateMedian Value.null = JSNumber.fin false 0 0 ∧
    calculateMedian (Value.arr [Value.str "1", Value.arr []]) = JSNumber.fin false 0 0 ∧
    ∃ vs : List JSNumber,
      vs.Perm (([Value.str "3", Value.str "x", Value.str "1"].filter validNumber).map
        Value.toNumber) ∧ vs.Sorted JSNumber.le ∧
      (vs.length = 0 →
        calculateMedian (Value.arr [Value.str "3", Value.str "x", Value.str "1"])
          = JSNumber.fin false 0 0) ∧
      (vs.length % 2 = 1 →
        calculateMedian (Value.arr [Value.str "3", Value.str "x", Value.str "1"])
          = vs.getD (vs.length / 2) JSNumber.nan) ∧
      (vs.length ≠ 0 → vs.length % 2 = 0 →
        calculateMedian (Value.arr [Value.str "3", Value.str "x", Value.str "1"])
          = ((vs.getD (vs.length / 2 - 1) JSNumber.nan).add
              (vs.getD (vs.length / 2) JSNumber.nan)).div (JSNumber.ofNat 2)) :=
  ⟨calculateMedian_middle.1 Value.null rfl,
   calculateMedian_middle.2.1 [Value.str "1", Value.arr []] rfl,
   calculateMedian_middle.2.2.1 [Value.str "3", Value.str "x", Value.str "1"] rfl⟩


/-! ## Claims on `flatten` and `dataDimensions` -/

theorem filter_single_cells (cells : List Value) :
    ((cells.map (fun c => Value.arr [c])).filter (fun row => match row with
        | Value.arr cs => validNumber (getIndex cs 0)
        | _ => false)).map (fun row => match row with
        | Value.arr cs => parseFloat (getIndex cs 0)
        | _ => JSNumber.nan)
      = (cells.filter validNumber).map parseFloat := by
  induction cells with
  | nil => rfl
  | cons c cells ih =>
    have hc : getIndex [c] 0 = c := rfl
    simp only [List.map_cons, List.filter_cons, hc]
    cases hv : validNumber c
    · simpa using ih
    · simpa [hc] using ih

theorem flatten_single_cells (cells : List Value) :
    flatten (Value.arr (cells.map (fun c => Value.arr [c])))
      = (cells.filter validNumber).map parseFloat := by
  have hany : (cells.map (fun c => Value.arr [c])).any (fun row => match row with
      | Value.arr cs => decide (cs.length ≠ 1)
      | _ => true) = false := by
    rw [List.any_eq_false]
    intro row hrow
    obtain ⟨c, _, rfl⟩ := List.mem_map.mp hrow
    simp
  simp only [flatten, hany]
  exact filter_single_cells cells

/-- C17: `flatten` returns the empty sequence for a value that is not an array
and for an array with an element that is not an array of exactly one cell; on
a table of single-cell rows it returns, in row order, the `parseFloat` values
of exactly the cells `validNumber` accepts, so the result is never longer than
the input and the empty table gives the empty sequence.  In particular
`flatten([["1"],["2"],["x"]])` is `[1, 2]`. -/
theorem flatten_cells :
    (∀ v : Value, v.isArray = false → flatten v = []) ∧
    (∀ rows : List Value, (∃ row ∈ rows, ∀ c : Value, row ≠ Value.arr [c]) →
      flatten (Value.arr rows) = []) ∧
    (∀ cells : List Value,
      flatten (Value.arr (cells.map (fun c => Value.arr [c])))
        = (cells.filter validNumber).map parseFloat) ∧
    (∀ cells : List Value,
      (flatten (Value.arr (cells.map (fun c => Value.arr [c])))).length ≤ cells.length) ∧
    flatten (Value.arr []) = [] ∧
    flatten (Value.arr [Value.arr [Value.str "1"], Value.arr [Value.str "2"],
        Value.arr [Value.str "x"]]) = [JSNumber.ofNat 1, JSNumber.ofNat 2] := by
  refine ⟨?_, ?_, flatten_single_cells, ?_, rfl, by decide!⟩
  · intro v h
    cases v <;> first | rfl | exact Bool.noConfusion h
  · intro rows h
    obtain ⟨row, hmem, hrow⟩ := h
    have hany : rows.any (fun row => match row with
        | Value.arr cs => decide (cs.length ≠ 1)
        | _ => true) = true := by
      rw [List.any_eq_true]
      refine ⟨row, hmem, ?_⟩
      cases row with
      | arr cs =>
        match cs with
        | [] => simp
        | [c] => exact absurd rfl (hrow c)
        | _ :: _ :: _ => simp
      | _ => rfl
    simp only [flatten, hany, if_true]
  · intro cells
    rw [flatten_single_cells, List.length_map]
    exact List.length_filter_le _ _

/-- The cases of C17 on concrete inputs: a string, a table with a row of two
cells, and a table with a row that is not an array. -/
theorem flatten_cells_witness :
    flatten (Value.str "1") = [] ∧
    flatten (Value.arr [Value.arr [Value.str "1"], Value.arr [Value.str "2", Value.str "3"]])
      = [] ∧
    flatten (Value.arr [Value.arr [Value.str "1"], Value.str "2"]) = [] :=
  ⟨flatten_cells.1 (Value.str "1") rfl,
   flatten_cells.2.1 _ ⟨Value.arr [Value.str "2", Value.str "3"], by simp, by simp⟩,
   flatten_cells.2.1 _ ⟨Value.str "2", by simp, by simp⟩⟩

theorem ofNat_succ_ne_zero (n : Nat) :
    (JSNumber.ofNat (n + 1)).numEq (JSNumber.fin false 0 0) = false := by
  unfold JSNumber.ofNat
  rw [roundToDouble_eq_roundFrom false (n + 1) 1 (Nat.succ_ne_zero n)]
  rcases roundFrom_ge false ((n + 1) * 2 ^ 1074) 1 1 0 (by decide) (by decide)
      (by
        rw [pow_zero, mul_one, mul_one]
        exact Nat.succ_le_of_lt (by positivity)) with h | ⟨m, e, h, hm⟩
  · rw [h]; rfl
  · rw [h]
    have hne : m ≠ 0 := by
      intro h0
      rw [h0] at hm
      simp at hm
    simp [JSNumber.numEq, hne]

/-- C18: `dataDimensions` returns `[-1, -1]` for `undefined`, for `null` and
for the array with no rows; for an array with at least one row it returns the
number of rows with the length of the first row when that row is an array,
and with `-1` when it is not, whatever the other rows are.  In particular
`dataDimensions([["a","b"],["c","d"]])` is `[2, 2]` and `dataDimensions([[]])`
is `[1, 0]`. -/
theorem dataDimensions_shape :
    dataDimensions Value.undefined = (Value.num minusOne, Value.num minusOne) ∧
    dataDimensions Value.null = (Value.num minusOne, Value.num minusOne) ∧
    dataDimensions (Value.arr []) = (Value.num minusOne, Value.num minusOne) ∧
    (∀ (cells : List Value) (rest : List Value),
      dataDimensions (Value.arr (Value.arr cells :: rest))
        = (Value.num (JSNumber.ofNat (rest.length + 1)),
           Value.num (JSNumber.ofNat cells.length))) ∧
    (∀ (first : Value) (rest : List Value), first.isArray = false →
      dataDimensions (Value.arr (first :: rest))
        = (Value.num (JSNumber.ofNat (rest.length + 1)), Value.num minusOne)) ∧
    dataDimensions (Value.arr [Value.arr [Value.str "a", Value.str "b"],
        Value.arr [Value.str "c", Value.str "d"]])
      = (Value.num (JSNumber.ofNat 2), Value.num (JSNumber.ofNat 2)) ∧
    dataDimensions (Value.arr [Value.arr []])
      = (Value.num (JSNumber.ofNat 1), Value.num (JSNumber.ofNat 0)) := by
  have hrows : ∀ (first : Value) (rest : List Value),
      (!(Value.arr (first :: rest)).truthy ||
        strictEq (Value.arr (first :: rest)).lengthOf (Value.num (JSNumber.fin false 0 0)))
        = false := by
    intro first rest
    simp only [Value.truthy, Value.lengthOf, strictEq, List.length_cons, ofNat_succ_ne_zero]
    rfl
  refine ⟨rfl, rfl, rfl, ?_, ?_, by decide!, by decide!⟩
  · intro cells rest
    simp only [dataDimensions, hrows]
    rfl
  · intro first rest h
    simp only [dataDimensions, hrows]
    cases first <;> first | exact Bool.noConfusion h | simp only [Value.lengthOf, List.length_cons]
    all_goals trivial

/-- A ragged table whose first row is not an array: 2 rows, `-1` columns. -/
theorem dataDimensions_shape_witness :
    dataDimensions (Value.arr [Value.str "ab", Value.arr [Value.str "c"]])
      = (Value.num (JSNumber.ofNat ([Value.arr [Value.str "c"]].length + 1)),
         Value.num minusOne) :=
  dataDimensions_shape.2.2.2.2.1 (Value.str "ab") [Value.arr [Value.str "c"]] rfl

/-! ## The two numeric tests -/

theorem calculateMedian_eq_medianOf (xs : List Value) (h : xs.any Value.isArray = false) :
    calculateMedian (Value.arr xs)
      = medianOf (sortNumbers ((xs.filter validNumber).map Value.toNumber)) := by
  simp only [calculateMedian, h, medianOf]
  rfl

theorem ofNat_two : JSNumber.ofNat 2 = JSNumber.fin false (2 ^ 52) 1023 := by decide!

theorem getD_mem_of_lt (vs : List JSNumber) (i : Nat) (h : i < vs.length) :
    vs.getD i JSNumber.nan ∈ vs := by
  rw [List.getD_eq_getElem _ _ h]
  exact List.getElem_mem h

theorem finite_cases {x : JSNumber} (h : x.isFinite = true) : ∃ s m e, x = JSNumber.fin s m e := by
  cases x with
  | nan => exact Bool.noConfusion h
  | inf _ => exact Bool.noConfusion h
  | fin s m e => exact ⟨s, m, e, rfl⟩

theorem toUnits_false (m e : Nat) :
    (JSNumber.fin false m e).toUnits = ((m * 2 ^ e : Nat) : Int) := rfl

theorem toUnits_true (m e : Nat) :
    (JSNumber.fin true m e).toUnits = -((m * 2 ^ e : Nat) : Int) := rfl

theorem round_ge (s : Bool) (n d k mf ef : Nat) (hd : d = k * 2 ^ 1074) (hk : 0 < k)
    (hn : n ≠ 0) (hmf : mf < 2 ^ 53) (h : mf * 2 ^ ef * k ≤ n) :
    roundToDouble s n d = JSNumber.inf s ∨
    ∃ m e, roundToDouble s n d = JSNumber.fin s m e ∧ mf * 2 ^ ef ≤ m * 2 ^ e := by
  rw [roundToDouble_eq_roundFrom s n _ hn, hd]
  apply roundFrom_ge s (n * 2 ^ 1074) (k * 2 ^ 1074) mf ef hmf
  · exact Nat.mul_pos hk (by positivity)
  · calc mf * 2 ^ ef * (k * 2 ^ 1074) = mf * 2 ^ ef * k * 2 ^ 1074 := by ring
      _ ≤ n * 2 ^ 1074 := Nat.mul_le_mul_right (2 ^ 1074) h

theorem round_le (s : Bool) (n d k mf ef : Nat) (hd : d = k * 2 ^ 1074) (hk : 0 < k)
    (hn : n ≠ 0) (hmf : mf < 2 ^ 53) (h : n ≤ mf * 2 ^ ef * k) :
    (roundToDouble s n d = JSNumber.inf s ∧ maxExp < ef) ∨
    ∃ m e, roundToDouble s n d = JSNumber.fin s m e ∧ m * 2 ^ e ≤ mf * 2 ^ ef := by
  rw [roundToDouble_eq_roundFrom s n _ hn, hd]
  apply roundFrom_le s (n * 2 ^ 1074) (k * 2 ^ 1074) mf ef hmf
  · exact Nat.mul_pos hk (by positivity)
  · calc n * 2 ^ 1074 ≤ mf * 2 ^ ef * k * 2 ^ 1074 := Nat.mul_le_mul_right (2 ^ 1074) h
      _ = mf * 2 ^ ef * (k * 2 ^ 1074) := by ring

/-- The sign and the magnitude of a finite result of rounding a signed
fraction: positive fractions give `fin false`, negative ones `fin true`. -/
theorem round_signed_sign (v : Int) (d k : Nat) (hd : d = k * 2 ^ 1074) (hk : 0 < k)
    (hv : v ≠ 0) (s : Bool) (m e : Nat)
    (hx : roundToDouble (decide (v < 0)) v.natAbs d = JSNumber.fin s m e) :
    s = decide (v < 0) := by
  have hn : v.natAbs ≠ 0 := by omega
  rcases round_ge (decide (v < 0)) v.natAbs d k 0 0 hd hk hn (by decide) (by simp)
    with h1 | ⟨m', e', h1, _⟩
  · rw [h1] at hx; exact JSNumber.noConfusion hx
  · rw [h1] at hx
    injection hx with hs _ _
    exact hs.symm

/-- A finite result of rounding the signed fraction `v / k` (in units) is not
below a number `c` with `c * k ≤ v`. -/
theorem round_signed_ge (v : Int) (d k : Nat) (hd : d = k * 2 ^ 1074) (hk : 0 < k)
    (hv : v ≠ 0) (sc : Bool) (mc ec : Nat) (hmc : mc < 2 ^ 53)
    (h : (JSNumber.fin sc mc ec).toUnits * k ≤ v) (s : Bool) (m e : Nat)
    (hx : roundToDouble (decide (v < 0)) v.natAbs d = JSNumber.fin s m e) :
    (JSNumber.fin sc mc ec).toUnits ≤ (JSNumber.fin s m e).toUnits := by
  have hn : v.natAbs ≠ 0 := by omega
  have hs := round_signed_sign v d k hd hk hv s m e hx
  have hcast : (((mc * 2 ^ ec) * k : Nat) : Int) = ((mc * 2 ^ ec : Nat) : Int) * (k : Int) :=
    Nat.cast_mul _ _
  have hkpos : (0 : Int) < (k : Int) := by exact_mod_cast hk
  by_cases hneg : v < 0
  · have hdec : decide (v < 0) = true := by simpa using hneg
    rw [hdec] at hx hs
    subst hs
    have hc : (JSNumber.fin sc mc ec).toUnits < 0 := by
      by_contra hc
      have : 0 ≤ (JSNumber.fin sc mc ec).toUnits * k :=
        Int.mul_nonneg (not_lt.mp hc) (Int.ofNat_nonneg k)
      omega
    have hsc : sc = true := by
      cases sc
      · rw [toUnits_false] at hc; omega
      · rfl
    subst hsc
    rw [toUnits_true] at h ⊢
    rw [toUnits_true]
    have hnat : v.natAbs ≤ mc * 2 ^ ec * k := by
      rw [neg_mul] at h
      omega
    rcases round_le true v.natAbs d k mc ec hd hk hn hmc hnat with ⟨h1, _⟩ | ⟨m', e', h1, h2⟩
    · rw [h1] at hx; exact JSNumber.noConfusion hx
    · rw [h1] at hx
      injection hx with _ hm he
      subst hm he
      omega
  · have hdec : decide (v < 0) = false := by simpa using hneg
    rw [hdec] at hx hs
    subst hs
    rw [toUnits_false]
    cases sc
    · rw [toUnits_false] at h ⊢
      have hnat : mc * 2 ^ ec * k ≤ v.natAbs := by omega
      rcases round_ge false v.natAbs d k mc ec hd hk hn hmc hnat with h3 | ⟨m2, e2, h3, h4⟩
      · rw [h3] at hx; exact JSNumber.noConfusion hx
      · rw [h3] at hx
        injection hx with _ hm he
        subst hm he
        omega
    · rw [toUnits_true]
      omega

/-- A finite result of rounding the signed fraction `v / k` (in units) is not
above a number `c` with `v ≤ c * k`. -/
theorem round_signed_le (v : Int) (d k : Nat) (hd : d = k * 2 ^ 1074) (hk : 0 < k)
    (hv : v ≠ 0) (sc : Bool) (mc ec : Nat) (hmc : mc < 2 ^ 53)
    (h : v ≤ (JSNumber.fin sc mc ec).toUnits * k) (s : Bool) (m e : Nat)
    (hx : roundToDouble (decide (v < 0)) v.natAbs d = JSNumber.fin s m e) :
    (JSNumber.fin s m e).toUnits ≤ (JSNumber.fin sc mc ec).toUnits := by
  have hn : v.natAbs ≠ 0 := by omega
  have hs := round_signed_sign v d k hd hk hv s m e hx
  have hcast : (((mc * 2 ^ ec) * k : Nat) : Int) = ((mc * 2 ^ ec : Nat) : Int) * (k : Int) :=
    Nat.cast_mul _ _
  have hkpos : (0 : Int) < (k : Int) := by exact_mod_cast hk
  by_cases hneg : v < 0
  · have hdec : decide (v < 0) = true := by simpa using hneg
    rw [hdec] at hx hs
    subst hs
    rw [toUnits_true]
    cases sc
    · rw [toUnits_false]
      omega
    · rw [toUnits_true] at h ⊢
      have hnat : mc * 2 ^ ec * k ≤ v.natAbs := by
        rw [neg_mul] at h
        omega
      rcases round_ge true v.natAbs d k mc ec hd hk hn hmc hnat with h3 | ⟨m2, e2, h3, h4⟩
      · rw [h3] at hx; exact JSNumber.noConfusion hx
      · rw [h3] at hx
        injection hx with _ hm he
        subst hm he
        omega
  · have hdec : decide (v < 0) = false := by simpa using hneg
    rw [hdec] at hx hs
    subst hs
    have hc : 0 < (JSNumber.fin sc mc ec).toUnits := by
      by_contra hc
      have : (JSNumber.fin sc mc ec).toUnits * k ≤ 0 :=
        Int.mul_nonpos_of_nonpos_of_nonneg (not_lt.mp hc) (Int.ofNat_nonneg k)
      omega
    have hsc : sc = false := by
      cases sc
      · rfl
      · rw [toUnits_true] at hc; omega
    subst hsc
    rw [toUnits_false] at h ⊢
    rw [toUnits_false]
    have hnat : v.natAbs ≤ mc * 2 ^ ec * k := by omega
    rcases round_le false v.natAbs d k mc ec hd hk hn hmc hnat with ⟨h1, _⟩ | ⟨m', e', h1, h2⟩
    · rw [h1] at hx; exact JSNumber.noConfusion hx
    · rw [h1] at hx
      injection hx with _ hm he
      subst hm he
      omega


/-- Rounding the signed fraction `v / k` between two binary64 values gives a
finite number. -/
theorem round_signed_finite (v : Int) (d k : Nat) (hd : d = k * 2 ^ 1074) (hk : 0 < k)
    (hv : v ≠ 0) (sl : Bool) (ml el : Nat) (sh : Bool) (mh eh : Nat)
    (hl : (JSNumber.fin sl ml el).isDouble = true) (hh : (JSNumber.fin sh mh eh).isDouble = true)
    (h1 : (JSNumber.fin sl ml el).toUnits * k ≤ v)
    (h2 : v ≤ (JSNumber.fin sh mh eh).toUnits * k) :
    ∃ s m e, roundToDouble (decide (v < 0)) v.natAbs d = JSNumber.fin s m e := by
  have hn : v.natAbs ≠ 0 := by omega
  simp only [JSNumber.isDouble, Bool.and_eq_true, decide_eq_true_eq] at hl hh
  have hkpos : (0 : Int) < (k : Int) := by exact_mod_cast hk
  by_cases hneg : v < 0
  · have hdec : decide (v < 0) = true := by simpa using hneg
    rw [hdec]
    have hcast : (((ml * 2 ^ el) * k : Nat) : Int) = ((ml * 2 ^ el : Nat) : Int) * (k : Int) :=
      Nat.cast_mul _ _
    have hc : (JSNumber.fin sl ml el).toUnits < 0 := by
      by_contra hc
      have : 0 ≤ (JSNumber.fin sl ml el).toUnits * k :=
        Int.mul_nonneg (not_lt.mp hc) (Int.ofNat_nonneg k)
      omega
    have hsc : sl = true := by
      cases sl
      · rw [toUnits_false] at hc; omega
      · rfl
    subst hsc
    rw [toUnits_true] at h1
    have hnat : v.natAbs ≤ ml * 2 ^ el * k := by
      rw [neg_mul] at h1
      omega
    rcases round_le true v.natAbs d k ml el hd hk hn hl.1 hnat with ⟨_, h3⟩ | ⟨m', e', h3, _⟩
    · omega
    · exact ⟨true, m', e', h3⟩
  · have hdec : decide (v < 0) = false := by simpa using hneg
    rw [hdec]
    have hcast : (((mh * 2 ^ eh) * k : Nat) : Int) = ((mh * 2 ^ eh : Nat) : Int) * (k : Int) :=
      Nat.cast_mul _ _
    have hc : 0 < (JSNumber.fin sh mh eh).toUnits := by
      by_contra hc
      have : (JSNumber.fin sh mh eh).toUnits * k ≤ 0 :=
        Int.mul_nonpos_of_nonpos_of_nonneg (not_lt.mp hc) (Int.ofNat_nonneg k)
      omega
    have hsc : sh = false := by
      cases sh
      · rfl
      · rw [toUnits_true] at hc; omega
    subst hsc
    rw [toUnits_false] at h2
    have hnat : v.natAbs ≤ mh * 2 ^ eh * k := by omega
    rcases round_le false v.natAbs d k mh eh hd hk hn hh.1 hnat with ⟨_, h3⟩ | ⟨m', e', h3, _⟩
    · omega
    · exact ⟨false, m', e', h3⟩

theorem toUnits_double (s : Bool) (m e : Nat) :
    (JSNumber.fin s m (e + 1)).toUnits = 2 * (JSNumber.fin s m e).toUnits := by
  cases s
  · simp only [toUnits_false, pow_succ]
    push_cast
    ring
  · simp only [toUnits_true, pow_succ]
    push_cast
    ring

theorem toUnits_zero (s : Bool) (e : Nat) : (JSNumber.fin s 0 e).toUnits = 0 := by
  cases s <;> simp [JSNumber.toUnits]

/-- A finite sum of two finite numbers `a ≤ b` lies between `2a` and `2b`. -/
theorem add_between (sa : Bool) (ma ea : Nat) (sb : Bool) (mb eb : Nat)
    (hma : ma < 2 ^ 53) (hmb : mb < 2 ^ 53)
    (hle : (JSNumber.fin sa ma ea).toUnits ≤ (JSNumber.fin sb mb eb).toUnits)
    (s : Bool) (m e : Nat)
    (hT : (JSNumber.fin sa ma ea).add (JSNumber.fin sb mb eb) = JSNumber.fin s m e) :
    2 * (JSNumber.fin sa ma ea).toUnits ≤ (JSNumber.fin s m e).toUnits ∧
    (JSNumber.fin s m e).toUnits ≤ 2 * (JSNumber.fin sb mb eb).toUnits := by
  simp only [JSNumber.add] at hT
  by_cases h0 : (JSNumber.fin sa ma ea).toUnits + (JSNumber.fin sb mb eb).toUnits = 0
  · rw [if_pos h0] at hT
    injection hT with _ hm _
    subst hm
    rw [toUnits_zero]
    omega
  · rw [if_neg h0] at hT
    have hd : (2 : Nat) ^ 1074 = 1 * 2 ^ 1074 := (Nat.one_mul _).symm
    constructor
    · rw [← toUnits_double]
      apply round_signed_ge _ _ 1 hd (by decide) h0 sa ma (ea + 1) hma _ s m e hT
      rw [toUnits_double]
      push_cast
      omega
    · rw [← toUnits_double]
      apply round_signed_le _ _ 1 hd (by decide) h0 sb mb (eb + 1) hmb _ s m e hT
      rw [toUnits_double]
      push_cast
      omega

theorem two_units : (2 : Nat) ^ 52 * 2 ^ 1023 = 2 * 2 ^ 1074 := by
  rw [← pow_add, ← pow_succ']

/-- Half of a finite number between `2 lo` and `2 hi`, for binary64 values
`lo` and `hi`, is a finite number between `lo` and `hi`. -/
theorem half_between (s : Bool) (m e : Nat) (sl : Bool) (ml el : Nat) (sh : Bool) (mh eh : Nat)
    (hl : (JSNumber.fin sl ml el).isDouble = true) (hh : (JSNumber.fin sh mh eh).isDouble = true)
    (h1 : 2 * (JSNumber.fin sl ml el).toUnits ≤ (JSNumber.fin s m e).toUnits)
    (h2 : (JSNumber.fin s m e).toUnits ≤ 2 * (JSNumber.fin sh mh eh).toUnits) :
    ∃ s' m' e', (JSNumber.fin s m e).div (JSNumber.ofNat 2) = JSNumber.fin s' m' e' ∧
      (JSNumber.fin sl ml el).toUnits ≤ (JSNumber.fin s' m' e').toUnits ∧
      (JSNumber.fin s' m' e').toUnits ≤ (JSNumber.fin sh mh eh).toUnits := by
  rw [ofNat_two]
  have h52 : (2 : Nat) ^ 52 ≠ 0 := by decide
  simp only [JSNumber.div, if_neg h52, Bool.bne_false]
  by_cases h0 : m * 2 ^ e = 0
  · rw [h0]
    refine ⟨s, 0, 0, by simp [roundToDouble], ?_⟩
    have hz : (JSNumber.fin s m e).toUnits = 0 := by
      cases s
      · rw [toUnits_false, h0]; rfl
      · rw [toUnits_true, h0]; rfl
    rw [hz] at h1 h2
    rw [toUnits_zero]
    omega
  · have hv : (JSNumber.fin s m e).toUnits ≠ 0 := by
      cases s
      · rw [toUnits_false]; omega
      · rw [toUnits_true]; omega
    have hsign : s = decide ((JSNumber.fin s m e).toUnits < 0) := by
      cases s
      · rw [toUnits_false]
        simp
      · have hpos : 0 < m * 2 ^ e := Nat.pos_of_ne_zero h0
        have hlt : (JSNumber.fin true m e).toUnits < 0 := by
          rw [toUnits_true]
          omega
        exact (decide_eq_true hlt).symm
    have hx : roundToDouble s (m * 2 ^ e) (2 ^ 52 * 2 ^ 1023)
        = roundToDouble (decide ((JSNumber.fin s m e).toUnits < 0))
            (JSNumber.fin s m e).toUnits.natAbs (2 ^ 52 * 2 ^ 1023) := by
      rw [toUnits_natAbs, ← hsign]
    rw [hx]
    have hl' : (JSNumber.fin sl ml el).toUnits * ((2 : Nat) : Int)
        ≤ (JSNumber.fin s m e).toUnits := by
      push_cast
      omega
    have hh' : (JSNumber.fin s m e).toUnits
        ≤ (JSNumber.fin sh mh eh).toUnits * ((2 : Nat) : Int) := by
      push_cast
      omega
    obtain ⟨s', m', e', hr⟩ := round_signed_finite _ _ 2 two_units (by decide) hv sl ml el
      sh mh eh hl hh hl' hh'
    have hml : ml < 2 ^ 53 := by
      simp only [JSNumber.isDouble, Bool.and_eq_true, decide_eq_true_eq] at hl
      exact hl.1
    have hmh : mh < 2 ^ 53 := by
      simp only [JSNumber.isDouble, Bool.and_eq_true, decide_eq_true_eq] at hh
      exact hh.1
    exact ⟨s', m', e', hr,
      round_signed_ge _ _ 2 two_units (by decide) hv sl ml el hml hl' s' m' e' hr,
      round_signed_le _ _ 2 two_units (by decide) hv sh mh eh hmh hh' s' m' e' hr⟩


theorem roundToDouble_inf_or_fin (s : Bool) (n d : Nat) :
    roundToDouble s n d = JSNumber.inf s ∨ ∃ m e, roundToDouble s n d = JSNumber.fin s m e := by
  by_cases hn : n = 0
  · subst hn
    exact Or.inr ⟨0, 0, by simp [roundToDouble]⟩
  · rw [roundToDouble_eq_roundFrom s n d hn]
    rcases roundFrom_cases s (n * 2 ^ 1074) d with ⟨h, _⟩ | ⟨m, e, h, _⟩
    · exact Or.inl h
    · exact Or.inr ⟨m, e, h⟩

theorem add_fin_comm (sa : Bool) (ma ea : Nat) (sb : Bool) (mb eb : Nat) :
    (JSNumber.fin sa ma ea).add (JSNumber.fin sb mb eb)
      = (JSNumber.fin sb mb eb).add (JSNumber.fin sa ma ea) := by
  simp only [JSNumber.add]
  rw [Int.add_comm, Bool.and_comm]

theorem add_fin_cases (sa : Bool) (ma ea : Nat) (sb : Bool) (mb eb : Nat) :
    (∃ s, (JSNumber.fin sa ma ea).add (JSNumber.fin sb mb eb) = JSNumber.inf s) ∨
    ∃ s m e, (JSNumber.fin sa ma ea).add (JSNumber.fin sb mb eb) = JSNumber.fin s m e := by
  simp only [JSNumber.add]
  split
  · exact Or.inr ⟨_, _, _, rfl⟩
  · rcases roundToDouble_inf_or_fin
      (decide ((JSNumber.fin sa ma ea).toUnits + (JSNumber.fin sb mb eb).toUnits < 0))
      ((JSNumber.fin sa ma ea).toUnits + (JSNumber.fin sb mb eb).toUnits).natAbs (2 ^ 1074)
      with h | ⟨m, e, h⟩
    · exact Or.inl ⟨_, h⟩
    · exact Or.inr ⟨_, m, e, h⟩

/-- The midpoint `(a + b) / 2` of two binary64 values, when it is finite, lies
between them. -/
theorem midpoint_between (a b : JSNumber) (ha : a.isFinite = true) (hb : b.isFinite = true)
    (hda : a.isDouble = true) (hdb : b.isDouble = true)
    (hfin : ((a.add b).div (JSNumber.ofNat 2)).isFinite = true) :
    (a.le ((a.add b).div (JSNumber.ofNat 2)) ∧ ((a.add b).div (JSNumber.ofNat 2)).le b) ∨
    (b.le ((a.add b).div (JSNumber.ofNat 2)) ∧ ((a.add b).div (JSNumber.ofNat 2)).le a) := by
  obtain ⟨sa, ma, ea, rfl⟩ := finite_cases ha
  obtain ⟨sb, mb, eb, rfl⟩ := finite_cases hb
  have hma : ma < 2 ^ 53 := by
    simp only [JSNumber.isDouble, Bool.and_eq_true, decide_eq_true_eq] at hda
    exact hda.1
  have hmb : mb < 2 ^ 53 := by
    simp only [JSNumber.isDouble, Bool.and_eq_true, decide_eq_true_eq] at hdb
    exact hdb.1
  rcases add_fin_cases sa ma ea sb mb eb with ⟨s, hT⟩ | ⟨s, m, e, hT⟩
  · rw [hT, ofNat_two] at hfin
    exact Bool.noConfusion hfin
  · rw [hT]
    rcases le_total (JSNumber.fin sa ma ea).toUnits (JSNumber.fin sb mb eb).toUnits with hle | hle
    · left
      obtain ⟨h1, h2⟩ := add_between sa ma ea sb mb eb hma hmb hle s m e hT
      obtain ⟨s', m', e', hR, h3, h4⟩ := half_between s m e sa ma ea sb mb eb hda hdb h1 h2
      rw [hR]
      exact ⟨h3, h4⟩
    · right
      rw [add_fin_comm] at hT
      obtain ⟨h1, h2⟩ := add_between sb mb eb sa ma ea hmb hma hle s m e hT
      obtain ⟨s', m', e', hR, h3, h4⟩ := half_between s m e sb mb eb sa ma ea hdb hda h1 h2
      rw [hR]
      exact ⟨h3, h4⟩

theorem decValue_isDouble (neg : Bool) (u : UDec) : (decValue neg u).isDouble = true := by
  cases u with
  | infinity => rfl
  | dec ip fp eneg ex =>
    simp only [decValue]
    split
    · exact roundToDouble_isDouble _ _ _ (by positivity)
    · split
      · exact roundToDouble_isDouble _ _ _ (by decide)
      · exact roundToDouble_isDouble _ _ _ (by positivity)

theorem stringToNumber_isDouble (s : String) : (stringToNumber s).isDouble = true := by
  unfold stringToNumber
  simp only []
  split
  · rfl
  · split
    · exact roundToDouble_isDouble _ _ _ (by decide)
    · split
      · exact decValue_isDouble _ _
      · rfl

theorem toNumber_isDouble (v : Value) (h : ∀ x, v = Value.num x → x.isDouble = true) :
    v.toNumber.isDouble = true := by
  cases v with
  | undefined => rfl
  | null => rfl
  | bool b =>
    cases b
    · rfl
    · exact roundToDouble_isDouble _ _ _ (by decide)
  | num x => exact h x rfl
  | str s => exact stringToNumber_isDouble s
  | arr xs => exact stringToNumber_isDouble _

/-! ## Claims on the range of the median -/

/-- C20 fails when the sum of the two central values overflows: both elements
of `["1e308","1e308"]` are accepted with the finite value `1e308`, their sum
is `Infinity`, and `calculateMedian` returns `Infinity`, above the largest
accepted value. -/
theorem calculateMedian_overflow :
    ([Value.str "1e308", Value.str "1e308"].filter validNumber).map Value.toNumber
      = [stringToNumber "1e308", stringToNumber "1e308"] ∧
    (stringToNumber "1e308").isFinite = true ∧
    calculateMedian (Value.arr [Value.str "1e308", Value.str "1e308"]) = JSNumber.inf false := by
  decide!

/-- C20, amended: for every flat dataset of binary64 values with at least one
accepted element, when the number of accepted elements is odd the median is
the numeric value of one of them, and whenever the median is finite (it is an
infinity only when the sum of the two central values overflows) it is at least
one accepted value and at most one accepted value, hence between the smallest
and the largest. -/
theorem calculateMedian_between (xs : List Value) (hflat : xs.any Value.isArray = false)
    (hnum : ∀ x, Value.num x ∈ xs → x.isDouble = true)
    (hacc : xs.filter validNumber ≠ []) :
    ((xs.filter validNumber).length % 2 = 1 →
      calculateMedian (Value.arr xs) ∈ (xs.filter validNumber).map Value.toNumber) ∧
    ((calculateMedian (Value.arr xs)).isFinite = true →
      ∃ a ∈ (xs.filter validNumber).map Value.toNumber,
      ∃ b ∈ (xs.filter validNumber).map Value.toNumber,
        a.le (calculateMedian (Value.arr xs)) ∧ (calculateMedian (Value.arr xs)).le b) := by
  rw [calculateMedian_eq_medianOf xs hflat]
  have hperm := sortNumbers_perm ((xs.filter validNumber).map Value.toNumber)
  have hlen : (sortNumbers ((xs.filter validNumber).map Value.toNumber)).length
      = (xs.filter validNumber).length := by
    rw [hperm.length_eq, List.length_map]
  have hpos : (xs.filter validNumber).length ≠ 0 := by
    intro h
    exact hacc (List.length_eq_zero.mp h)
  have hmem : ∀ i, i < (xs.filter validNumber).length →
      (sortNumbers ((xs.filter validNumber).map Value.toNumber)).getD i JSNumber.nan
        ∈ (xs.filter validNumber).map Value.toNumber := by
    intro i hi
    exact hperm.mem_iff.mp (getD_mem_of_lt _ i (by rw [hlen]; exact hi))
  have hdouble : ∀ x ∈ (xs.filter validNumber).map Value.toNumber, x.isDouble = true := by
    intro x hx
    obtain ⟨v, hv, rfl⟩ := List.mem_map.mp hx
    apply toNumber_isDouble
    intro y hy
    subst hy
    exact hnum y (List.mem_filter.mp hv).1
  unfold medianOf
  rw [hlen, if_neg hpos]
  constructor
  · intro hodd
    have hodd' : (xs.filter validNumber).length % 2 ≠ 0 := by omega
    rw [if_pos hodd']
    exact hmem _ (by omega)
  · by_cases hodd : (xs.filter validNumber).length % 2 ≠ 0
    · rw [if_pos hodd]
      intro _
      exact ⟨_, hmem _ (by omega), _, hmem _ (by omega), le_refl _, le_refl _⟩
    · rw [if_neg hodd]
      intro hfin
      have ha := hmem ((xs.filter validNumber).length / 2 - 1) (by omega)
      have hb := hmem ((xs.filter validNumber).length / 2) (by omega)
      rcases midpoint_between _ _ (accepted_isFinite xs _ ha) (accepted_isFinite xs _ hb)
          (hdouble _ ha) (hdouble _ hb) hfin with h | h
      · exact ⟨_, ha, _, hb, h.1, h.2⟩
      · exact ⟨_, hb, _, ha, h.1, h.2⟩

/-- The dataset `["1","4","x","2","3"]` has four accepted elements; its median
2.5 is finite and lies between two accepted values. -/
theorem calculateMedian_between_witness :
    ∃ a ∈ ([Value.str "1", Value.str "4", Value.str "x", Value.str "2",
        Value.str "3"].filter validNumber).map Value.toNumber,
    ∃ b ∈ ([Value.str "1", Value.str "4", Value.str "x", Value.str "2",
        Value.str "3"].filter validNumber).map Value.toNumber,
      a.le (calculateMedian (Value.arr [Value.str "1", Value.str "4", Value.str "x",
        Value.str "2", Value.str "3"])) ∧
      (calculateMedian (Value.arr [Value.str "1", Value.str "4", Value.str "x",
        Value.str "2", Value.str "3"])).le b :=
  (calculateMedian_between [Value.str "1", Value.str "4", Value.str "x", Value.str "2",
      Value.str "3"] rfl (by simp) (by decide!)).2 (by decide!)


end Dfr
